import Mathlib

/- Shallow embedding of the Study-Notion learning platform (Flask + SQLAlchemy
   + an AI content generation module).  Database tables are embedded as lists
   of row structures; request handlers become pure functions from the relevant
   rows (and request data) to the updated rows together with the response
   value.  Python integers are unbounded, so Nat / Int / Rat model the
   arithmetic exactly; Python `int(x)` applied to a nonnegative quotient is
   Nat division.  String primitives (`split`, `replace`, `strip`, slicing,
   `in`, `lower`) are embedded below as executable functions over the code
   points of the string, matching CPython semantics on the inputs the
   application produces. -/

/-- Test whether the pattern occurs at the head of the string, both given as
lists of characters.  This is the primitive from which the Python substring
operations below are embedded. -/
def headMatch : List Char → List Char → Bool
  | [], _ => true
  | _ :: _, [] => false
  | a :: pa, b :: s => a == b && headMatch pa s

/-- Python `pat in s` (substring containment) over lists of characters. -/
def subIn (pat : List Char) : List Char → Bool
  | [] => headMatch pat []
  | c :: s => headMatch pat (c :: s) || subIn pat s

/-- Python `pat in s` (substring containment) on strings. -/
def strIn (pat s : String) : Bool := subIn pat.data s.data

/-- Python `s.lower()` restricted to its ASCII action (`Char.toLower`
lowercases exactly the ASCII uppercase letters, as CPython does on ASCII
input; the keyword scan of the quiz fallback only involves ASCII). -/
def strLower (s : String) : String := ⟨s.data.map Char.toLower⟩

/-- Python `s.split(sep)` for a non-empty separator, over lists of characters.
The fuel argument, an upper bound on the number of characters consumed, makes
the recursion structural; `pySplit` supplies enough fuel for the whole
input, so the fuel-exhausted branch is never taken. -/
def splitFuel (sep : List Char) : Nat → List Char → List (List Char)
  | 0, s => [s]
  | _ + 1, [] => [[]]
  | fuel + 1, c :: s =>
    if headMatch sep (c :: s) then
      [] :: splitFuel sep fuel (List.drop (sep.length - 1) s)
    else
      match splitFuel sep fuel s with
      | [] => [[c]]
      | h :: t => (c :: h) :: t

/-- Python `s.split(sep)` on strings (non-empty separator). -/
def pySplit (sep s : String) : List String :=
  (splitFuel sep.data (s.data.length + 1) s.data).map (fun cs => ⟨cs⟩)

/-- Drop leading whitespace characters. -/
def dropWs : List Char → List Char
  | [] => []
  | c :: s => if c.isWhitespace then dropWs s else c :: s

/-- Python `s.strip()` (whitespace stripping at both ends). -/
def pyStrip (s : String) : String := ⟨dropWs (dropWs s.data.reverse).reverse⟩

/-- Python `s.replace(old, new)` for a non-empty `old`: left-to-right,
non-overlapping replacement of every occurrence, by fuel recursion. -/
def replaceFuel (pat rep : List Char) : Nat → List Char → List Char
  | 0, s => s
  | _ + 1, [] => []
  | fuel + 1, c :: s =>
    if headMatch pat (c :: s) then
      rep ++ replaceFuel pat rep fuel (List.drop (pat.length - 1) s)
    else
      c :: replaceFuel pat rep fuel s

/-- Python `s.replace(old, new)` on strings (non-empty `old`). -/
def pyReplace (s pat rep : String) : String :=
  ⟨replaceFuel pat.data rep.data (s.data.length + 1) s.data⟩

/-- Python `s[:n]` (slicing a string to its first `n` code points). -/
def pyTake (s : String) (n : Nat) : String := ⟨s.data.take n⟩

/-- Python `sep.join(parts)`. -/
def joinWith (sep : String) : List String → String
  | [] => ""
  | [x] => x
  | x :: y :: t => x ++ sep ++ joinWith sep (y :: t)

/-- One answer option of a generated quiz question, mirroring the JSON
objects `{"text": ..., "is_correct": ...}` built in `ai_services.py`. -/
structure GenOption where
  text : String
  is_correct : Bool
deriving DecidableEq

/-- One generated quiz question with its options. -/
structure GenQuestion where
  question : String
  options : List GenOption
deriving DecidableEq

/-- The quiz artifact returned by `generate_quiz_from_content` and by the
quiz fallback: a dictionary with a `questions` list. -/
structure QuizData where
  questions : List GenQuestion
deriving DecidableEq

/-- The keyword list scanned by `_generate_fallback_quiz`
(`ai_services.py` line 298). -/
def fallbackKeywords : List String :=
  ["python", "javascript", "programming", "database", "web", "html",
   "css", "function", "class", "algorithm", "react", "flask"]

/-- The pre-authored Python question set of `_generate_fallback_quiz`
(`ai_services.py` lines 304-334). -/
def pythonQuizData : QuizData :=
  { questions :=
      [ { question := "What is Python\x27s primary programming paradigm?"
          options :=
            [ { text := "Object-oriented programming", is_correct := true }
            , { text := "Procedural programming only", is_correct := false }
            , { text := "Functional programming only", is_correct := false }
            , { text := "Assembly programming", is_correct := false } ] }
      , { question := "Which of the following is a correct way to create a list in Python?"
          options :=
            [ { text := "my_list = [1, 2, 3]", is_correct := true }
            , { text := "my_list = (1, 2, 3)", is_correct := false }
            , { text := "my_list = \x7b1, 2, 3\x7d", is_correct := false }
            , { text := "my_list = 1, 2, 3", is_correct := false } ] }
      , { question := "What does the \x27self\x27 parameter in Python class methods represent?"
          options :=
            [ { text := "The instance of the class", is_correct := true }
            , { text := "The class itself", is_correct := false }
            , { text := "The parent class", is_correct := false }
            , { text := "A required keyword", is_correct := false } ] } ] }

/-- The pre-authored JavaScript/web question set of `_generate_fallback_quiz`
(`ai_services.py` lines 336-357). -/
def webQuizData : QuizData :=
  { questions :=
      [ { question := "Which of the following is used to declare a variable in modern JavaScript?"
          options :=
            [ { text := "let and const", is_correct := true }
            , { text := "dim", is_correct := false }
            , { text := "define", is_correct := false }
            , { text := "int and string", is_correct := false } ] }
      , { question := "What does the DOM stand for in web development?"
          options :=
            [ { text := "Document Object Model", is_correct := true }
            , { text := "Data Object Model", is_correct := false }
            , { text := "Document Oriented Markup", is_correct := false }
            , { text := "Display Object Management", is_correct := false } ] } ] }

/-- The generic programming question set of `_generate_fallback_quiz`
(`ai_services.py` lines 360-390). -/
def genericQuizData : QuizData :=
  { questions :=
      [ { question := "What is a function in programming?"
          options :=
            [ { text := "A reusable block of code that performs a specific task", is_correct := true }
            , { text := "A type of variable", is_correct := false }
            , { text := "A database query", is_correct := false }
            , { text := "A hardware component", is_correct := false } ] }
      , { question := "Which data structure follows the LIFO (Last In, First Out) principle?"
          options :=
            [ { text := "Stack", is_correct := true }
            , { text := "Queue", is_correct := false }
            , { text := "Tree", is_correct := false }
            , { text := "Graph", is_correct := false } ] }
      , { question := "What does API stand for?"
          options :=
            [ { text := "Application Programming Interface", is_correct := true }
            , { text := "Automated Programming Interface", is_correct := false }
            , { text := "Application Process Integration", is_correct := false }
            , { text := "Algorithmic Programming Interface", is_correct := false } ] } ] }

/-- `_generate_fallback_quiz(content, num_questions)` of `ai_services.py`:
scans the lowercased content for the topical keywords, returns the Python set
when "python" was found, the JavaScript/web set when "javascript" or "web"
was found, and the generic set otherwise.  The `num_questions` argument is
accepted but never read. -/
def _generate_fallback_quiz (content : String) (num_questions : Nat) : QuizData :=
  let found_keywords := fallbackKeywords.filter (fun k => strIn k (strLower content))
  if "python" ∈ found_keywords then pythonQuizData
  else if "javascript" ∈ found_keywords ∨ "web" ∈ found_keywords then webQuizData
  else genericQuizData

/-- The fixed text the summary fallback places before the extracted content
(the f-string of `ai_services.py` lines 412-417 up to `{intro}`). -/
def summaryPre : String :=
  "\n    # Content Summary \n    \n    This is a basic summary extracted from the lecture content:\n    \n    "

/-- The fixed text the summary fallback places after the extracted content
(the f-string of `ai_services.py` lines 417-420 after `{intro}`). -/
def summaryPost : String :=
  "\n    \n    Note: For more comprehensive AI-generated summaries, please ensure the Gemini API key is correctly configured.\n    "

/-- The tag-rewriting chain of `_generate_fallback_summary`
(`ai_services.py` lines 405-410): the fixed set of HTML markup tags is
removed or rewritten to markdown. -/
def stripMarkup (s : String) : String :=
  let intro := pyReplace (pyReplace s "<p>" "") "</p>" "\n\n"
  let intro := pyReplace (pyReplace intro "<h1>" "# ") "</h1>" "\n\n"
  let intro := pyReplace (pyReplace intro "<h2>" "## ") "</h2>" "\n\n"
  let intro := pyReplace (pyReplace intro "<h3>" "### ") "</h3>" "\n\n"
  let intro := pyReplace (pyReplace intro "<ul>" "") "</ul>" ""
  let intro := pyReplace (pyReplace intro "<li>" "- ") "</li>" "\n"
  intro

/-- `_generate_fallback_summary(content)` of `ai_services.py` lines 392-420:
split on the literal period; when more than three parts result, rejoin the
first three parts with ". " and a final "."; otherwise keep the content,
truncated to its first 200 code points (plus "...") when longer than 200;
then strip the markup tags and wrap in the fixed preamble text. -/
def _generate_fallback_summary (content : String) : String :=
  summaryPre ++
    stripMarkup
      (if (pySplit "." content).length > 3 then
        joinWith ". " ((pySplit "." content).take 3) ++ "."
      else if content.length > 200 then pyTake content 200 ++ "..." else content) ++
    summaryPost

/-- `_generate_fallback_study_notes(content)` of `ai_services.py` lines
422-437: a fixed markdown skeleton, independent of the input. -/
def _generate_fallback_study_notes (_content : String) : String :=
  "\n# Study Notes\n\n## Overview\nThis is a basic overview of the content.\n\n## Key Points\n* Important point 1\n* Important point 2\n* Important point 3\n\n## Summary\nThese are the most important concepts to remember from this content.\n"

/-- One lesson of a generated course outline. -/
structure LessonData where
  title : String
  content : String
  order : Nat
deriving DecidableEq

/-- One module of a generated course outline. -/
structure ModuleData where
  title : String
  description : String
  order : Nat
  lessons : List LessonData
deriving DecidableEq

/-- The course-outline artifact returned by `generate_course_content` and by
its fallback: a dictionary with a `modules` list. -/
structure CourseData where
  modules : List ModuleData
deriving DecidableEq

/-- `_generate_fallback_course_content(title, description, num_modules)` of
`ai_services.py` lines 439-473: `num_modules` generic modules, each with
exactly 3 generic lessons; the `description` argument is never read. -/
def _generate_fallback_course_content (title _description : String)
    (num_modules : Nat) : CourseData :=
  { modules :=
      (List.range' 1 num_modules).map (fun i =>
        { title := "Module " ++ toString i
          description := "This is module " ++ toString i ++ " of the " ++ title ++ " course."
          order := i
          lessons :=
            (List.range' 1 3).map (fun j =>
              { title := "Lesson " ++ toString j
                content := "Content outline for lesson " ++ toString j ++ " of module " ++ toString i ++ "."
                order := j }) }) }

/-- Outcome of one interaction with the Gemini provider, as seen by a
generation function in `ai_services.py`: the module-level availability flag
is false (`unavailable`), the model call or response access raised
(`failure`), or a response text came back (`response`). -/
inductive ProviderResult where
  | unavailable : ProviderResult
  | failure : ProviderResult
  | response (text : String) : ProviderResult
deriving DecidableEq

/-- The JSON-extraction step shared by `generate_quiz_from_content` and
`generate_course_content` (`ai_services.py` lines 119-125 and 275-281):
take the contents of a fenced ```json block if present, else of the first
fenced block, else the whole response, and strip whitespace. -/
def extractJsonText (response_text : String) : String :=
  if strIn "```json" response_text then
    pyStrip ((pySplit "```" ((pySplit "```json" response_text).getD 1 "")).getD 0 "")
  else if strIn "```" response_text then
    pyStrip ((pySplit "```" ((pySplit "```" response_text).getD 1 "")).getD 0 "")
  else pyStrip response_text

/-- `generate_quiz_from_content(content, num_questions)` of `ai_services.py`
lines 69-133.  `parse` embeds `json.loads` (plus the dictionary shape the
caller reads): `none` models a `JSONDecodeError` or otherwise unusable
document, which the `except` clause turns into the fallback.  The function
is total: every failure mode yields the fallback artifact. -/
def generate_quiz_from_content (parse : String → Option QuizData)
    (provider : ProviderResult) (content : String) (num_questions : Nat) : QuizData :=
  match provider with
  | .unavailable => _generate_fallback_quiz content num_questions
  | .failure => _generate_fallback_quiz content num_questions
  | .response t =>
    match parse (extractJsonText t) with
    | some quiz_data => quiz_data
    | none => _generate_fallback_quiz content num_questions

/-- `summarize_content(content)` of `ai_services.py` lines 135-170. -/
def summarize_content (provider : ProviderResult) (content : String) : String :=
  match provider with
  | .unavailable => _generate_fallback_summary content
  | .failure => _generate_fallback_summary content
  | .response t => pyStrip t

/-- `generate_study_notes(content)` of `ai_services.py` lines 172-216. -/
def generate_study_notes (provider : ProviderResult) (content : String) : String :=
  match provider with
  | .unavailable => _generate_fallback_study_notes content
  | .failure => _generate_fallback_study_notes content
  | .response t => pyStrip t

/-- `generate_course_content(title, description, num_modules)` of
`ai_services.py` lines 218-289, with `parse` embedding `json.loads` as for
the quiz generator. -/
def generate_course_content (parse : String → Option CourseData)
    (provider : ProviderResult) (title description : String)
    (num_modules : Nat) : CourseData :=
  match provider with
  | .unavailable => _generate_fallback_course_content title description num_modules
  | .failure => _generate_fallback_course_content title description num_modules
  | .response t =>
    match parse (extractJsonText t) with
    | some course_data => course_data
    | none => _generate_fallback_course_content title description num_modules

/-- A `QuizQuestion` row (`models.py` lines 159-164): primary key and the
quiz it belongs to. -/
structure QuizQuestionRow where
  id : Nat
  quiz_id : Nat
deriving DecidableEq

/-- A `QuizOption` row (`models.py` lines 167-171). -/
structure QuizOptionRow where
  id : Nat
  is_correct : Bool
  question_id : Nat
deriving DecidableEq

/-- A `LectureProgress` row (`models.py` lines 127-135; the
`current_position` and timestamp fields play no role in the claims). -/
structure LectureProgressRow where
  id : Nat
  user_id : Nat
  lecture_id : Nat
  completed : Bool
deriving DecidableEq

/-- A `QuizAttempt` row (`models.py` lines 174-183). -/
structure QuizAttemptRow where
  user_id : Nat
  quiz_id : Nat
  score : Nat
  total_questions : Nat
deriving DecidableEq

/-- One iteration of the grading loop of `submit_quiz` (`routes.py` lines
510-515): look the submitted option id up in the global `QuizOption` table
by primary key and count it when its `is_correct` flag is set.  `answers`
embeds `request.form.get` for the per-question field: `none` is an
unanswered question. -/
def gradeStep (options : List QuizOptionRow) (answers : Nat → Option Nat)
    (score : Nat) (q : QuizQuestionRow) : Nat :=
  match answers q.id with
  | none => score
  | some oid =>
    match options.find? (fun o => o.id = oid) with
    | some o => if o.is_correct then score + 1 else score
    | none => score

/-- The grading loop of `submit_quiz` as a fold of `gradeStep` over the
questions starting from score 0. -/
def gradeScore (options : List QuizOptionRow) (answers : Nat → Option Nat)
    (questions : List QuizQuestionRow) : Nat :=
  questions.foldl (gradeStep options answers) 0

/-- Score, total and percentage of one quiz submission (`routes.py` lines
503-517): exact rational arithmetic models Python float division here, which
is exact for the comparison against the 70 threshold at all realistic
sizes. -/
structure AttemptResult where
  score : Nat
  total_questions : Nat
  percentage : ℚ
deriving DecidableEq

/-- The score/total/percentage computation of `submit_quiz`. -/
def computeAttempt (options : List QuizOptionRow) (answers : Nat → Option Nat)
    (questions : List QuizQuestionRow) : AttemptResult :=
  let score := gradeScore options answers questions
  let total_questions := questions.length
  { score := score
    total_questions := total_questions
    percentage :=
      if total_questions > 0 then (score : ℚ) / (total_questions : ℚ) * 100 else 0 }

/-- The declarative reading of the grading loop: a question counts exactly
when an option id was submitted for it, that id exists in the option table,
and the found option is marked correct. -/
def chosenCorrect (options : List QuizOptionRow) (answers : Nat → Option Nat)
    (q : QuizQuestionRow) : Bool :=
  match answers q.id with
  | none => false
  | some oid =>
    match options.find? (fun o => o.id = oid) with
    | some o => o.is_correct
    | none => false

/-- `LectureProgress.query.filter_by(...).first()` followed by
`progress.completed = True` (`routes.py` lines 533-535): set the flag on the
first matching row; when no row matches, nothing changes and no row is
created. -/
def markFirstCompleted (userId lectureId : Nat) :
    List LectureProgressRow → List LectureProgressRow
  | [] => []
  | p :: rest =>
    if p.user_id = userId ∧ p.lecture_id = lectureId then
      { p with completed := true } :: rest
    else p :: markFirstCompleted userId lectureId rest

/-- `submit_quiz(quiz_id)` of `routes.py` lines 489-544, from the point where
the enrollment check has passed: grade the submission, append the
`QuizAttempt` row, and when the percentage is at least 70 mark the first
matching `LectureProgress` row of the owning lecture completed.  Returns the
updated progress table and attempt table. -/
def submit_quiz (options : List QuizOptionRow) (answers : Nat → Option Nat)
    (questions : List QuizQuestionRow) (userId quizId lectureId : Nat)
    (lps : List LectureProgressRow) (attempts : List QuizAttemptRow) :
    List LectureProgressRow × List QuizAttemptRow :=
  let res := computeAttempt options answers questions
  let attempts2 := attempts ++ [⟨userId, quizId, res.score, res.total_questions⟩]
  let lps2 :=
    if (70 : ℚ) ≤ res.percentage then markFirstCompleted userId lectureId lps
    else lps
  (lps2, attempts2)

/-- Is there a completed `LectureProgress` row for this user and lecture? -/
def hasCompletedFlag (lps : List LectureProgressRow) (userId lectureId : Nat) : Bool :=
  lps.any (fun p => p.user_id = userId ∧ p.lecture_id = lectureId ∧ p.completed)

/-- A `Section` row (`models.py` lines 99-106). -/
structure SectionRow where
  id : Nat
  order : Nat
  course_id : Nat
deriving DecidableEq

/-- A `Lecture` row (`models.py` lines 109-124; only the ordering-relevant
fields are kept). -/
structure LectureRow where
  id : Nat
  order : Nat
  section_id : Nat
deriving DecidableEq

/-- The sections of one course (`Section.query.filter_by(course_id=...)`). -/
def scopeSections (courseId : Nat) (secs : List SectionRow) : List SectionRow :=
  secs.filter (fun s => s.course_id = courseId)

/-- The lectures of one section (`Lecture.query.filter_by(section_id=...)`). -/
def scopeLectures (sectionId : Nat) (lecs : List LectureRow) : List LectureRow :=
  lecs.filter (fun l => l.section_id = sectionId)

/-- The order chosen for an appended section (`routes.py` lines 959-963):
one more than the highest existing order in the course, or 1 when the course
has no sections.  The fold computes the maximum order of the scope, which is
the order of the first row of the descending `order_by` query. -/
def nextSectionOrder (courseId : Nat) (secs : List SectionRow) : Nat :=
  if (scopeSections courseId secs).isEmpty then 1
  else ((scopeSections courseId secs).map (fun s => s.order)).foldr max 0 + 1

/-- `create_section` of `routes.py` lines 945-985, from the point where the
form validated: append a section row carrying the next order. -/
def create_section (courseId newId : Nat) (secs : List SectionRow) : List SectionRow :=
  secs ++ [⟨newId, nextSectionOrder courseId secs, courseId⟩]

/-- The order chosen for an appended lecture (`routes.py` lines 1085-1089). -/
def nextLectureOrder (sectionId : Nat) (lecs : List LectureRow) : Nat :=
  if (scopeLectures sectionId lecs).isEmpty then 1
  else ((scopeLectures sectionId lecs).map (fun l => l.order)).foldr max 0 + 1

/-- `create_lecture` of `routes.py` lines 1070-1127, from the point where the
form validated: append a lecture row carrying the next order. -/
def create_lecture (sectionId newId : Nat) (lecs : List LectureRow) : List LectureRow :=
  lecs ++ [⟨newId, nextLectureOrder sectionId lecs, sectionId⟩]

/-- Insert a section row into a list sorted by ascending order value. -/
def insertByOrderS (s : SectionRow) : List SectionRow → List SectionRow
  | [] => [s]
  | t :: rest =>
    if s.order ≤ t.order then s :: t :: rest else t :: insertByOrderS s rest

/-- Sort section rows by ascending order value (the `order_by(Section.order)`
of the renumbering queries; ties are broken arbitrarily by SQL, here by
input position). -/
def sortByOrderS : List SectionRow → List SectionRow
  | [] => []
  | s :: rest => insertByOrderS s (sortByOrderS rest)

/-- Insert a lecture row into a list sorted by ascending order value. -/
def insertByOrderL (l : LectureRow) : List LectureRow → List LectureRow
  | [] => [l]
  | t :: rest =>
    if l.order ≤ t.order then l :: t :: rest else t :: insertByOrderL l rest

/-- Sort lecture rows by ascending order value. -/
def sortByOrderL : List LectureRow → List LectureRow
  | [] => []
  | l :: rest => insertByOrderL l (sortByOrderL rest)

/-- The renumbering loop `for i, sec in enumerate(remaining_sections, 1):
sec.order = i` (`routes.py` lines 1056-1058). -/
def assignOrdersS : Nat → List SectionRow → List SectionRow
  | _, [] => []
  | i, s :: rest => { s with order := i } :: assignOrdersS (i + 1) rest

/-- The renumbering loop of `delete_lecture` (`routes.py` lines 1212-1214). -/
def assignOrdersL : Nat → List LectureRow → List LectureRow
  | _, [] => []
  | i, l :: rest => { l with order := i } :: assignOrdersL (i + 1) rest

/-- `delete_section(section_id)` of `routes.py` lines 1026-1067 restricted to
the `Section` table (the cascading deletion of lectures, progress and quiz
rows does not touch section orders): remove the row, then renumber the
surviving sections of the same course to 1..n in ascending order of their
old order values.  Rows of other courses are untouched. -/
def delete_section (sectionId : Nat) (secs : List SectionRow) : List SectionRow :=
  match secs.find? (fun s => s.id = sectionId) with
  | none => secs
  | some sec =>
    (secs.filter (fun s => ¬ s.id = sectionId)).filter
        (fun s => ¬ s.course_id = sec.course_id) ++
      assignOrdersS 1 (sortByOrderS ((secs.filter (fun s => ¬ s.id = sectionId)).filter
        (fun s => s.course_id = sec.course_id)))

/-- `delete_lecture(lecture_id)` of `routes.py` lines 1184-1223 restricted to
the `Lecture` table: remove the row, then renumber the surviving lectures of
the same section to 1..n in ascending order of their old order values. -/
def delete_lecture (lectureId : Nat) (lecs : List LectureRow) : List LectureRow :=
  match lecs.find? (fun l => l.id = lectureId) with
  | none => lecs
  | some lec =>
    (lecs.filter (fun l => ¬ l.id = lectureId)).filter
        (fun l => ¬ l.section_id = lec.section_id) ++
      assignOrdersL 1 (sortByOrderL ((lecs.filter (fun l => ¬ l.id = lectureId)).filter
        (fun l => l.section_id = lec.section_id)))

/-- The reorder loop of `reorder_sections` (`routes.py` lines 1333-1336):
`for idx, section_id in enumerate(section_order, 1)`, fetch the row by
primary key and assign `order = idx` only when it exists and belongs to the
course; ids that are unknown or belong to another course are silently
skipped.  Fetch-by-primary-key is embedded as a map over the table, which
agrees with `query.get` because ids are a primary key. -/
def applySectionOrder (courseId : Nat) : Nat → List Nat → List SectionRow → List SectionRow
  | _, [], secs => secs
  | idx, sid :: rest, secs =>
    applySectionOrder courseId (idx + 1) rest
      (secs.map (fun s =>
        if s.id = sid ∧ s.course_id = courseId then { s with order := idx } else s))

/-- `reorder_sections` of `routes.py` lines 1315-1343, from the point where
the ownership check passed.  A falsy `courseId` (0 embeds Python `None`/0)
or an empty id list is answered with `success: False` and no change; any
other request runs the loop and is answered with `success: True`. -/
def reorder_sections (secs : List SectionRow) (courseId : Nat)
    (section_order : List Nat) : List SectionRow × Bool :=
  if courseId = 0 ∨ section_order.isEmpty then (secs, false)
  else (applySectionOrder courseId 1 section_order secs, true)

/-- The reorder loop of `reorder_lectures` (`routes.py` lines 1365-1368),
identical to the section loop over the lecture table. -/
def applyLectureOrder (sectionId : Nat) : Nat → List Nat → List LectureRow → List LectureRow
  | _, [], lecs => lecs
  | idx, lid :: rest, lecs =>
    applyLectureOrder sectionId (idx + 1) rest
      (lecs.map (fun l =>
        if l.id = lid ∧ l.section_id = sectionId then { l with order := idx } else l))

/-- `reorder_lectures` of `routes.py` lines 1346-1375, from the point where
the ownership check passed. -/
def reorder_lectures (lecs : List LectureRow) (sectionId : Nat)
    (lecture_order : List Nat) : List LectureRow × Bool :=
  if sectionId = 0 ∨ lecture_order.isEmpty then (lecs, false)
  else (applyLectureOrder sectionId 1 lecture_order lecs, true)

/-- Density of the order values in the section scope of one course: the
orders of the course sections are exactly 1..count. -/
def denseSectionScope (courseId : Nat) (secs : List SectionRow) : Prop :=
  ((scopeSections courseId secs).map (fun s => s.order)).Perm
    (List.range' 1 (scopeSections courseId secs).length)

/-- Density of the order values in the lecture scope of one section. -/
def denseLectureScope (sectionId : Nat) (lecs : List LectureRow) : Prop :=
  ((scopeLectures sectionId lecs).map (fun l => l.order)).Perm
    (List.range' 1 (scopeLectures sectionId lecs).length)

instance (courseId : Nat) (secs : List SectionRow) :
    Decidable (denseSectionScope courseId secs) := by
  unfold denseSectionScope
  infer_instance

instance (sectionId : Nat) (lecs : List LectureRow) :
    Decidable (denseLectureScope sectionId lecs) := by
  unfold denseLectureScope
  infer_instance

/-- An `Enrollment` row (`models.py` lines 138-143). -/
structure EnrollmentRow where
  user_id : Nat
  course_id : Nat
deriving DecidableEq

/-- The join condition of `Course.get_progress`: the lecture belongs via its
section to the given course. -/
def lectureInCourse (sections : List SectionRow) (courseId : Nat)
    (l : LectureRow) : Bool :=
  sections.any (fun s => s.id = l.section_id ∧ s.course_id = courseId)

/-- The lectures under a course (`Lecture JOIN Section` filtered on the
course; `Section.id` is a primary key, so the join never duplicates). -/
def courseLectures (sections : List SectionRow) (lectures : List LectureRow)
    (courseId : Nat) : List LectureRow :=
  lectures.filter (lectureInCourse sections courseId)

/-- The filter of the completed-lectures count of `Course.get_progress`
(`models.py` lines 67-71): a completed progress row of this user whose
lecture lies under the course. -/
def completedRowFor (sections : List SectionRow) (lectures : List LectureRow)
    (courseId userId : Nat) (p : LectureProgressRow) : Bool :=
  p.user_id = userId ∧ p.completed ∧
    lectures.any (fun l => l.id = p.lecture_id ∧ lectureInCourse sections courseId l)

/-- Round-to-nearest, ties-to-even, of the fraction `a / b` (for `b > 0`) to
an integer: the integer rounding primitive of IEEE 754 binary64
arithmetic, in exact natural-number arithmetic. -/
def rndNE (a b : Nat) : Nat :=
  if 2 * (a % b) < b then a / b
  else if b < 2 * (a % b) then a / b + 1
  else if (a / b) % 2 = 0 then a / b else a / b + 1

/-- Fuelled floor of the base-2 logarithm of a positive natural number (any
fuel at least the number itself is sufficient). -/
def ilog2F : Nat → Nat → Nat
  | 0, _ => 0
  | fuel + 1, n => if n ≤ 1 then 0 else ilog2F fuel (n / 2) + 1

/-- Fuelled search for the least `j ≥ 1` with `2 ^ j * c ≥ t`, used as the
negated binary exponent of a fraction `c / t < 1` (any fuel at least `t` is
sufficient for `c ≥ 1`). -/
def negExpF : Nat → Nat → Nat → Nat
  | 0, _, _ => 1
  | fuel + 1, c, t => if t ≤ 2 * c then 1 else negExpF fuel (2 * c) t + 1

/-- The binary exponent `e` of the positive fraction `c / t`, so that
`2 ^ e ≤ c / t < 2 ^ (e + 1)`. -/
def ratExp (c t : Nat) : Int :=
  if t ≤ c then (ilog2F c (c / t) : Int) else -(negExpF t c t : Int)

/-- The binary64 mantissa of `c / t` read off at exponent `e`: the fraction
rounded to the grid of spacing `2 ^ (e - 52)`. -/
def mantissaAt (c t : Nat) (e : Int) : Nat :=
  if 0 ≤ 52 - e then rndNE (c * 2 ^ (52 - e).toNat) t
  else rndNE c (t * 2 ^ (e - 52).toNat)

/-- Correctly rounded binary64 division `c / t` (CPython `int / int` true
division), returned as a mantissa-exponent pair `(m, E)` of value
`m * 2 ^ E`.  The model is round-to-nearest-even with an unbounded exponent
range, which agrees bit for bit with IEEE 754 binary64 everywhere in the
normal range — in particular on every value `get_progress` can produce. -/
def floatDiv (c t : Nat) : Nat × Int :=
  (mantissaAt c t (ratExp c t), ratExp c t - 52)

/-- Correctly rounded binary64 product of the double `m * 2 ^ E` with the
exact constant 100.0, again as a mantissa-exponent pair. -/
def floatMul100 (m : Nat) (E : Int) : Nat × Int :=
  (if 52 ≤ ilog2F (m * 100) (m * 100)
    then rndNE (m * 100) (2 ^ (ilog2F (m * 100) (m * 100) - 52))
    else m * 100 * 2 ^ (52 - ilog2F (m * 100) (m * 100)),
   (ilog2F (m * 100) (m * 100) : Int) + E - 52)

/-- Python `int(x)` on the nonnegative double `m * 2 ^ E`: truncation toward
zero, i.e. the floor. -/
def floorPosVal (m : Nat) (E : Int) : Nat :=
  if 0 ≤ E then m * 2 ^ E.toNat else m / 2 ^ (-E).toNat

/-- Python `int(c / t * 100)` in exact binary64 float semantics: divide with
correct rounding, multiply by 100.0 with correct rounding, truncate.  This
is the arithmetic `models.py` line 73 actually performs; it can differ from
the exact truncation `c * 100 / t` (for example it yields 57, not 58, at
`c = 29, t = 50`, because the double nearest 29/50 is slightly below 0.58
and the rounded product is 57.99999999999999289...). -/
def pyFloatPct (c t : Nat) : Nat :=
  if c = 0 then 0
  else if t = 0 then 0
  else
    floorPosVal (floatMul100 (floatDiv c t).1 (floatDiv c t).2).1
      (floatMul100 (floatDiv c t).1 (floatDiv c t).2).2

/-- `Course.get_progress(user_id)` of `models.py` lines 57-73: 0 without an
enrollment, 0 without lectures, otherwise `int(completed / total * 100)`
computed in Python float (binary64) arithmetic, embedded by `pyFloatPct`. -/
def get_progress (enrollments : List EnrollmentRow) (sections : List SectionRow)
    (lectures : List LectureRow) (lps : List LectureProgressRow)
    (courseId userId : Nat) : Nat :=
  if ¬ enrollments.any (fun e => e.user_id = userId ∧ e.course_id = courseId) then 0
  else if (courseLectures sections lectures courseId).length = 0 then 0
  else
    pyFloatPct (lps.countP (completedRowFor sections lectures courseId userId))
      (courseLectures sections lectures courseId).length

/-- A course with one section and 50 lectures, for the truncation
counterexample. -/
def cexSections : List SectionRow := [⟨1, 1, 1⟩]

/-- The 50 lectures of the counterexample course. -/
def cexLectures : List LectureRow :=
  (List.range 50).map (fun i => ⟨i + 1, i + 1, 1⟩)

/-- Completed progress rows of user 7 for the first 29 of the 50 lectures. -/
def cexProgress : List LectureProgressRow :=
  (List.range 29).map (fun i => ⟨i + 1, 7, i + 1, true⟩)

/-- User 7 enrolled in the counterexample course. -/
def cexEnrollments : List EnrollmentRow := [⟨7, 1⟩]

/-- Does this user have a completed progress row for this lecture? -/
def lectureCompletedFor (lps : List LectureProgressRow) (userId : Nat)
    (l : LectureRow) : Bool :=
  lps.any (fun p => p.user_id = userId ∧ p.lecture_id = l.id ∧ p.completed)

/-- A `Quiz` row (`models.py` lines 146-156; only identity and owning
lecture matter for the regeneration flow). -/
structure QuizRow where
  id : Nat
  lecture_id : Nat
deriving DecidableEq

/-- Outcome of the generation-and-persist phase inside the `try` block of
`generate_quiz_page` (`routes.py` lines 408-466): an exception anywhere in
the block (`throwsException`, e.g. at the final commit), a returned quiz
dictionary carrying an `error` key (`errorKey`), or success. -/
inductive QuizGenOutcome where
  | throwsException : QuizGenOutcome
  | errorKey : QuizGenOutcome
  | ok : QuizGenOutcome
deriving DecidableEq

/-- `generate_quiz_page(lecture_id)` of `routes.py` lines 370-486 restricted
to the `Quiz` table, on the POST path with a validated form: look up the
existing quiz of the lecture; when one exists and `generate_new` was
checked, delete it and commit immediately; then, when no quiz remains, check
the content length and run generation and persist inside `try`.  An
exception rolls back to the last committed state, which already lacks the
deleted quiz; the `error`-key and short-content paths redirect without
touching the session further. -/
def generate_quiz_page (quizzes : List QuizRow) (lectureId : Nat)
    (generate_new contentOk : Bool) (outcome : QuizGenOutcome)
    (newQuizId : Nat) : List QuizRow :=
  let quiz0 := quizzes.find? (fun q => q.lecture_id = lectureId)
  match quiz0 with
  | some q =>
    if generate_new then
      let committed := quizzes.filter (fun r => ¬ r.id = q.id)
      if ¬ contentOk then committed
      else
        match outcome with
        | .throwsException => committed
        | .errorKey => committed
        | .ok => committed ++ [⟨newQuizId, lectureId⟩]
    else quizzes
  | none =>
    if ¬ contentOk then quizzes
    else
      match outcome with
      | .throwsException => quizzes
      | .errorKey => quizzes
      | .ok => quizzes ++ [⟨newQuizId, lectureId⟩]

/-- A concrete 120-code-point single-sentence lecture content (one final
period, no other periods, no markup tags), used to instantiate the summary
fallback scenario. -/
def sampleLectureSentence : String :=
  "This lecture introduces the central ideas of the course and shows how the later sections build on the basics given here."

/-- C8: the fallback quiz generator ignores the requested question count:
for every content and any two requested counts it returns the same
artifact (a fixed pre-authored question set). -/
theorem fallback_quiz_ignores_count (content : String) (n1 n2 : Nat) :
    _generate_fallback_quiz content n1 = _generate_fallback_quiz content n2 := rfl

/-- C9: when the lowercased content contains the keyword "python" the
fallback quiz generator returns the pre-authored Python set, which contains
the literal question about the primary programming paradigm with
"Object-oriented programming" as its marked-correct option; when no keyword
of the scan list occurs, the generic programming set is returned. -/
theorem fallback_quiz_keyword_selection (content : String) (n : Nat) :
    (strIn "python" (strLower content) = true →
      _generate_fallback_quiz content n = pythonQuizData) ∧
    ((∀ k ∈ fallbackKeywords, strIn k (strLower content) = false) →
      _generate_fallback_quiz content n = genericQuizData) ∧
    pythonQuizData.questions.any (fun q =>
      q.question == "What is Python\x27s primary programming paradigm?" &&
      q.options.any (fun o => o.text == "Object-oriented programming" && o.is_correct)) = true := by
  refine ⟨?_, ?_, by decide⟩
  · intro h
    unfold _generate_fallback_quiz
    have hmem : "python" ∈ fallbackKeywords.filter (fun k => strIn k (strLower content)) := by
      rw [List.mem_filter]
      exact ⟨by decide, h⟩
    rw [if_pos hmem]
  · intro h
    unfold _generate_fallback_quiz
    have hnil : fallbackKeywords.filter (fun k => strIn k (strLower content)) = [] := by
      rw [List.filter_eq_nil_iff]
      intro k hk
      simp [h k hk]
    rw [hnil]
    simp

/-- Witness for C9 at the spec scenario content. -/
theorem fallback_quiz_keyword_selection_witness :
    _generate_fallback_quiz
      "Python is a high-level language built around classes and objects." 5 =
      pythonQuizData :=
  (fallback_quiz_keyword_selection
    "Python is a high-level language built around classes and objects." 5).1 (by decide)

/-- C4: no generation operation lets a failure escape to its caller: the four
generation functions are total, and on provider unavailability, provider call
failure, or (for the two JSON-structured operations) an unparseable
response, each returns its deterministic fallback artifact. -/
theorem generation_absorbs_failures
    (parseQ : String → Option QuizData) (parseC : String → Option CourseData)
    (provider : ProviderResult) (content title description : String)
    (nq nm : Nat) :
    (provider = .unavailable ∨ provider = .failure →
      generate_quiz_from_content parseQ provider content nq =
        _generate_fallback_quiz content nq ∧
      summarize_content provider content = _generate_fallback_summary content ∧
      generate_study_notes provider content = _generate_fallback_study_notes content ∧
      generate_course_content parseC provider title description nm =
        _generate_fallback_course_content title description nm) ∧
    (∀ t, provider = .response t → parseQ (extractJsonText t) = none →
      generate_quiz_from_content parseQ provider content nq =
        _generate_fallback_quiz content nq) ∧
    (∀ t, provider = .response t → parseC (extractJsonText t) = none →
      generate_course_content parseC provider title description nm =
        _generate_fallback_course_content title description nm) := by
  refine ⟨?_, ?_, ?_⟩
  · rintro (rfl | rfl) <;> exact ⟨rfl, rfl, rfl, rfl⟩
  · rintro t rfl h
    simp [generate_quiz_from_content, h]
  · rintro t rfl h
    simp [generate_course_content, h]

/-- Witness for C4: an unavailable provider and an unparseable response both
produce the fallback quiz. -/
theorem generation_absorbs_failures_witness :
    generate_quiz_from_content (fun _ => none) .unavailable "some lecture text" 5 =
      _generate_fallback_quiz "some lecture text" 5 ∧
    generate_quiz_from_content (fun _ => none) (.response "not json at all")
        "some lecture text" 5 =
      _generate_fallback_quiz "some lecture text" 5 :=
  ⟨((generation_absorbs_failures (fun _ => none) (fun _ => none) .unavailable
      "some lecture text" "t" "d" 5 3).1 (Or.inl rfl)).1,
   (generation_absorbs_failures (fun _ => none) (fun _ => none)
      (.response "not json at all") "some lecture text" "t" "d" 5 3).2.1
      "not json at all" rfl rfl⟩

/-- C7: the summary fallback returns the first three period-separated parts
(rejoined with ". " plus a final period) when splitting on the literal
period yields more than three parts — that is, when the content has at least
three period-terminated sentences — and otherwise the content itself,
truncated to its first 200 code points (plus "...") when longer than 200;
in every branch the fixed markup tags are rewritten and the result is
wrapped between the fixed preamble texts. -/
theorem fallback_summary_branches (content : String) :
    ((pySplit "." content).length > 3 →
      _generate_fallback_summary content =
        summaryPre ++
          stripMarkup (joinWith ". " ((pySplit "." content).take 3) ++ ".") ++
          summaryPost) ∧
    ((pySplit "." content).length ≤ 3 → content.length ≤ 200 →
      _generate_fallback_summary content =
        summaryPre ++ stripMarkup content ++ summaryPost) ∧
    ((pySplit "." content).length ≤ 3 → 200 < content.length →
      _generate_fallback_summary content =
        summaryPre ++ stripMarkup (pyTake content 200 ++ "...") ++ summaryPost) := by
  refine ⟨?_, ?_, ?_⟩
  · intro h
    unfold _generate_fallback_summary
    rw [if_pos h]
  · intro h hlen
    unfold _generate_fallback_summary
    rw [if_neg (by omega)]
    rw [if_neg (by omega)]
  · intro h hlen
    unfold _generate_fallback_summary
    rw [if_neg (by omega)]
    rw [if_pos (by omega)]

set_option maxRecDepth 100000 in
/-- Witness for C7 at the spec scenario: a 120-code-point single-sentence
content passes through unchanged between the fixed preamble texts. -/
theorem fallback_summary_branches_witness :
    sampleLectureSentence.length = 120 ∧
    (pySplit "." sampleLectureSentence).length ≤ 3 ∧
    _generate_fallback_summary sampleLectureSentence =
      summaryPre ++ sampleLectureSentence ++ summaryPost :=
  ⟨by decide, by decide,
    ((fallback_summary_branches sampleLectureSentence).2.1 (by decide)
      (by decide)).trans (by decide)⟩

/-- One grading step adds exactly the indicator of `chosenCorrect`. -/
theorem gradeStep_eq (options : List QuizOptionRow) (answers : Nat → Option Nat)
    (n : Nat) (q : QuizQuestionRow) :
    gradeStep options answers n q =
      n + (if chosenCorrect options answers q then 1 else 0) := by
  unfold gradeStep chosenCorrect
  rcases answers q.id with _ | oid
  · simp
  · rcases hf : options.find? (fun o => o.id = oid) with _ | o
    · simp [hf]
    · simp only [hf]
      by_cases hc : o.is_correct <;> simp [hc]

/-- The grading fold counts the questions whose chosen option is correct. -/
theorem gradeScore_eq_countP (options : List QuizOptionRow)
    (answers : Nat → Option Nat) (questions : List QuizQuestionRow) :
    gradeScore options answers questions =
      questions.countP (fun q => chosenCorrect options answers q) := by
  unfold gradeScore
  suffices h : ∀ (init : Nat) (qs : List QuizQuestionRow),
      qs.foldl (gradeStep options answers) init =
        init + qs.countP (fun q => chosenCorrect options answers q) by
    simpa using h 0 questions
  intro init qs
  induction qs generalizing init with
  | nil => simp
  | cons q qs ih =>
    rw [List.foldl_cons, ih, gradeStep_eq, List.countP_cons]
    by_cases hc : chosenCorrect options answers q <;> simp [hc] <;> omega

/-- C5: `submit_quiz` scores a submission as the number of questions whose
chosen option is marked correct, takes the total as the number of questions
of the quiz regardless of how many were answered (unanswered questions count
as incorrect, never as excluded), and computes the percentage as
score/total*100, 0 when the quiz has no questions. -/
theorem submit_quiz_scoring (options : List QuizOptionRow)
    (answers : Nat → Option Nat) (questions : List QuizQuestionRow) :
    (computeAttempt options answers questions).score =
      questions.countP (fun q => chosenCorrect options answers q) ∧
    (computeAttempt options answers questions).total_questions = questions.length ∧
    (computeAttempt options answers questions).score ≤
      (computeAttempt options answers questions).total_questions ∧
    (questions.length ≠ 0 →
      (computeAttempt options answers questions).percentage =
        ((computeAttempt options answers questions).score : ℚ) /
          (questions.length : ℚ) * 100) ∧
    (questions.length = 0 →
      (computeAttempt options answers questions).percentage = 0) := by
  refine ⟨gradeScore_eq_countP options answers questions, rfl, ?_, ?_, ?_⟩
  · show gradeScore options answers questions ≤ questions.length
    rw [gradeScore_eq_countP]
    exact List.countP_le_length _
  · intro h
    show (if questions.length > 0 then _ else _) = _
    rw [if_pos (Nat.pos_of_ne_zero h)]
    rfl
  · intro h
    show (if questions.length > 0 then _ else _) = _
    rw [if_neg (by omega)]

/-- Witness for C5: one question, answered with the correct option. -/
theorem submit_quiz_scoring_witness :
    (computeAttempt [⟨10, true, 1⟩] (fun qid => if qid = 1 then some 10 else none)
        [⟨1, 1⟩]).percentage =
      ((computeAttempt [⟨10, true, 1⟩] (fun qid => if qid = 1 then some 10 else none)
        [⟨1, 1⟩]).score : ℚ) / (([⟨1, 1⟩] : List QuizQuestionRow).length : ℚ) * 100 :=
  (submit_quiz_scoring [⟨10, true, 1⟩] (fun qid => if qid = 1 then some 10 else none)
    [⟨1, 1⟩]).2.2.2.1 (by decide)

/-- The threshold test of `submit_quiz` in integer form: for a quiz with at
least one question, percentage at least 70 means 70 times the question count
is at most 100 times the score. -/
theorem percentage_ge70_iff (options : List QuizOptionRow)
    (answers : Nat → Option Nat) (questions : List QuizQuestionRow)
    (h : questions.length ≠ 0) :
    ((70 : ℚ) ≤ (computeAttempt options answers questions).percentage ↔
      70 * questions.length ≤ 100 * gradeScore options answers questions) := by
  have ht : (0 : ℚ) < (questions.length : ℚ) := by
    exact_mod_cast Nat.pos_of_ne_zero h
  show (70 : ℚ) ≤ (if questions.length > 0 then
      (gradeScore options answers questions : ℚ) / (questions.length : ℚ) * 100
    else 0) ↔ _
  rw [if_pos (Nat.pos_of_ne_zero h), div_mul_eq_mul_div, le_div_iff₀ ht]
  constructor
  · intro hle
    have : (70 : ℚ) * questions.length ≤ 100 * gradeScore options answers questions := by
      calc (70 : ℚ) * questions.length ≤ gradeScore options answers questions * 100 := hle
        _ = 100 * gradeScore options answers questions := by ring
    exact_mod_cast this
  · intro hle
    have : (70 : ℚ) * questions.length ≤ 100 * gradeScore options answers questions := by
      exact_mod_cast hle
    calc (70 : ℚ) * questions.length ≤ 100 * gradeScore options answers questions := this
      _ = gradeScore options answers questions * 100 := by ring

/-- Setting the completed flag on the first matching progress row makes the
completed flag visible whenever some matching row exists. -/
theorem markFirstCompleted_flag (userId lectureId : Nat)
    (lps : List LectureProgressRow)
    (hex : ∃ p ∈ lps, p.user_id = userId ∧ p.lecture_id = lectureId) :
    hasCompletedFlag (markFirstCompleted userId lectureId lps) userId lectureId = true := by
  induction lps with
  | nil => simp at hex
  | cons p rest ih =>
    unfold markFirstCompleted
    by_cases hp : p.user_id = userId ∧ p.lecture_id = lectureId
    · rw [if_pos hp]
      unfold hasCompletedFlag
      simp [hp.1, hp.2]
    · rw [if_neg hp]
      have hex2 : ∃ q ∈ rest, q.user_id = userId ∧ q.lecture_id = lectureId := by
        rcases hex with ⟨q, hq, hqu⟩
        rcases List.mem_cons.mp hq with rfl | hq2
        · exact absurd hqu hp
        · exact ⟨q, hq2, hqu⟩
      unfold hasCompletedFlag
      rw [List.any_cons]
      have := ih hex2
      unfold hasCompletedFlag at this
      rw [this, Bool.or_true]

/-- C1 counterexample: a perfect submission (percentage 100 ≥ 70) by a user
who has no `LectureProgress` row for the owning lecture leaves the completed
flag unset — `submit_quiz` only mutates an existing row and never creates
one, so the claim "the flag is true after the call" fails. -/
theorem submit_quiz_completion_counterexample :
    (70 : ℚ) ≤ (computeAttempt [⟨10, true, 1⟩] (fun _ => some 10) [⟨1, 1⟩]).percentage ∧
    hasCompletedFlag
      (submit_quiz [⟨10, true, 1⟩] (fun _ => some 10) [⟨1, 1⟩] 7 1 3 [] []).1 7 3 = false := by
  constructor
  · exact (percentage_ge70_iff [⟨10, true, 1⟩] (fun _ => some 10) [⟨1, 1⟩]
      (by decide)).mpr (by decide)
  · show hasCompletedFlag (if _ then _ else _) 7 3 = false
    split <;> rfl

/-- C1 amended: when the percentage is at least 70 and the user already has a
`LectureProgress` row for the owning lecture, `submit_quiz` sets its
completed flag; when no such row exists nothing is created, and when the
percentage is below 70 the progress table is left unchanged. -/
theorem submit_quiz_completion_amended (options : List QuizOptionRow)
    (answers : Nat → Option Nat) (questions : List QuizQuestionRow)
    (userId quizId lectureId : Nat) (lps : List LectureProgressRow)
    (attempts : List QuizAttemptRow) :
    ((70 : ℚ) ≤ (computeAttempt options answers questions).percentage →
      (∃ p ∈ lps, p.user_id = userId ∧ p.lecture_id = lectureId) →
      hasCompletedFlag
        (submit_quiz options answers questions userId quizId lectureId lps attempts).1
        userId lectureId = true) ∧
    ((computeAttempt options answers questions).percentage < 70 →
      (submit_quiz options answers questions userId quizId lectureId lps attempts).1 = lps) := by
  refine ⟨?_, ?_⟩
  · intro h70 hex
    show hasCompletedFlag (if _ then _ else _) userId lectureId = true
    rw [if_pos h70]
    exact markFirstCompleted_flag userId lectureId lps hex
  · intro hlt
    show (if _ then _ else _) = lps
    rw [if_neg (not_le.mpr hlt)]

/-- Witness for the amended C1: with an existing (uncompleted) progress row
and a perfect score the flag is set. -/
theorem submit_quiz_completion_amended_witness :
    hasCompletedFlag
      (submit_quiz [⟨10, true, 1⟩] (fun _ => some 10) [⟨1, 1⟩] 7 1 3
        [⟨1, 7, 3, false⟩] []).1 7 3 = true :=
  (submit_quiz_completion_amended [⟨10, true, 1⟩] (fun _ => some 10) [⟨1, 1⟩]
      7 1 3 [⟨1, 7, 3, false⟩] []).1
    ((percentage_ge70_iff [⟨10, true, 1⟩] (fun _ => some 10) [⟨1, 1⟩]
        (by decide)).mpr (by decide))
    ⟨⟨1, 7, 3, false⟩, by decide, by decide⟩

/-- C10: when a lecture already has a quiz and regeneration is requested, the
old quiz is deleted and committed before generation; if the subsequent
generation or persist step fails (exception, or an error key in the
generated data) the rollback only restores the committed state, which
already lacks the old quiz — the lecture ends up with no quiz at all, so
regeneration as a whole is not atomic. -/
theorem quiz_regeneration_not_atomic (quizzes : List QuizRow) (lectureId : Nat)
    (contentOk : Bool) (outcome : QuizGenOutcome) (newQuizId : Nat) (q : QuizRow)
    (hfind : quizzes.find? (fun r => r.lecture_id = lectureId) = some q)
    (honly : quizzes.filter (fun r => r.lecture_id = lectureId) = [q])
    (hfail : contentOk = false ∨ outcome = .throwsException ∨ outcome = .errorKey) :
    (generate_quiz_page quizzes lectureId true contentOk outcome newQuizId).filter
      (fun r => r.lecture_id = lectureId) = [] ∧
    q ∉ generate_quiz_page quizzes lectureId true contentOk outcome newQuizId := by
  have hcommitted :
      (quizzes.filter (fun r => ¬ r.id = q.id)).filter
        (fun r => r.lecture_id = lectureId) = [] := by
    rw [List.filter_comm, honly]
    simp
  have hres : generate_quiz_page quizzes lectureId true contentOk outcome newQuizId =
      quizzes.filter (fun r => ¬ r.id = q.id) := by
    unfold generate_quiz_page
    rw [hfind]
    rcases hfail with rfl | rfl | rfl
    · simp
    · rcases contentOk with _ | _ <;> simp
    · rcases contentOk with _ | _ <;> simp
  refine ⟨by rw [hres]; exact hcommitted, ?_⟩
  rw [hres]
  intro hmem
  have hq : q.lecture_id = lectureId := by
    have : q ∈ quizzes.filter (fun r => r.lecture_id = lectureId) := by
      rw [honly]; exact List.mem_singleton.mpr rfl
    simpa using (List.mem_filter.mp this).2
  have : q ∈ (quizzes.filter (fun r => ¬ r.id = q.id)).filter
      (fun r => r.lecture_id = lectureId) := by
    rw [List.mem_filter]
    exact ⟨hmem, by simpa using hq⟩
  rw [hcommitted] at this
  simp at this

/-- Witness for C10: one quiz on lecture 3, regeneration requested, the
persist step throws — the lecture is left with no quiz. -/
theorem quiz_regeneration_not_atomic_witness :
    (generate_quiz_page [⟨5, 3⟩] 3 true true .throwsException 9).filter
      (fun r => r.lecture_id = 3) = [] ∧
    (⟨5, 3⟩ : QuizRow) ∉ generate_quiz_page [⟨5, 3⟩] 3 true true .throwsException 9 :=
  quiz_regeneration_not_atomic [⟨5, 3⟩] 3 true .throwsException 9 ⟨5, 3⟩
    (by decide) (by decide) (Or.inr (Or.inl rfl))

/-- The section reorder loop, run on a duplicate-free id list, is the map
that gives every listed in-scope row the order `idx + position` (0-based
position in the list) and leaves every other row alone. -/
theorem applySectionOrder_eq_map (courseId : Nat) :
    ∀ (ord : List Nat), ord.Nodup → ∀ (idx : Nat) (secs : List SectionRow),
      applySectionOrder courseId idx ord secs =
        secs.map (fun s =>
          if s.course_id = courseId ∧ s.id ∈ ord then
            { s with order := idx + List.indexOf s.id ord }
          else s) := by
  intro ord
  induction ord with
  | nil =>
    intro _ idx secs
    simp [applySectionOrder]
  | cons a rest ih =>
    intro hnd idx secs
    obtain ⟨ha, hrest⟩ := List.nodup_cons.mp hnd
    have step : applySectionOrder courseId idx (a :: rest) secs =
        applySectionOrder courseId (idx + 1) rest
          (secs.map (fun s =>
            if s.id = a ∧ s.course_id = courseId then { s with order := idx } else s)) := rfl
    rw [step, ih hrest (idx + 1), List.map_map]
    apply List.map_congr_left
    intro s _
    simp only [Function.comp_apply]
    by_cases h1 : s.id = a ∧ s.course_id = courseId
    · rw [if_pos h1]
      dsimp only
      have hnotin : ¬ (s.course_id = courseId ∧ s.id ∈ rest) := by
        intro hc
        exact ha (h1.1 ▸ hc.2)
      rw [if_neg hnotin, if_pos ⟨h1.2, List.mem_cons.mpr (Or.inl h1.1)⟩]
      have hidx : List.indexOf s.id (a :: rest) = 0 := by
        rw [h1.1]
        exact List.indexOf_cons_self a rest
      rw [hidx]
      simp
    · rw [if_neg h1]
      by_cases h2 : s.course_id = courseId
      · by_cases h3 : s.id = a
        · exact absurd ⟨h3, h2⟩ h1
        · by_cases h4 : s.id ∈ rest
          · rw [if_pos ⟨h2, h4⟩, if_pos ⟨h2, List.mem_cons_of_mem a h4⟩]
            have hidx : List.indexOf s.id (a :: rest) = List.indexOf s.id rest + 1 := by
              rw [List.indexOf_cons_ne rest (Ne.symm h3)]
            rw [hidx]
            have harith : idx + 1 + List.indexOf s.id rest =
                idx + (List.indexOf s.id rest + 1) := by omega
            rw [harith]
          · rw [if_neg (fun hc => h4 hc.2), if_neg ?_]
            intro hc
            rcases List.mem_cons.mp hc.2 with h | h
            · exact h3 h
            · exact h4 h
      · rw [if_neg (fun hc => h2 hc.1), if_neg (fun hc => h2 hc.1)]

/-- The lecture reorder loop, run on a duplicate-free id list, is the map
that gives every listed in-scope row the order `idx + position` and leaves
every other row alone. -/
theorem applyLectureOrder_eq_map (sectionId : Nat) :
    ∀ (ord : List Nat), ord.Nodup → ∀ (idx : Nat) (lecs : List LectureRow),
      applyLectureOrder sectionId idx ord lecs =
        lecs.map (fun l =>
          if l.section_id = sectionId ∧ l.id ∈ ord then
            { l with order := idx + List.indexOf l.id ord }
          else l) := by
  intro ord
  induction ord with
  | nil =>
    intro _ idx lecs
    simp [applyLectureOrder]
  | cons a rest ih =>
    intro hnd idx lecs
    obtain ⟨ha, hrest⟩ := List.nodup_cons.mp hnd
    have step : applyLectureOrder sectionId idx (a :: rest) lecs =
        applyLectureOrder sectionId (idx + 1) rest
          (lecs.map (fun l =>
            if l.id = a ∧ l.section_id = sectionId then { l with order := idx } else l)) := rfl
    rw [step, ih hrest (idx + 1), List.map_map]
    apply List.map_congr_left
    intro l _
    simp only [Function.comp_apply]
    by_cases h1 : l.id = a ∧ l.section_id = sectionId
    · rw [if_pos h1]
      dsimp only
      have hnotin : ¬ (l.section_id = sectionId ∧ l.id ∈ rest) := by
        intro hc
        exact ha (h1.1 ▸ hc.2)
      rw [if_neg hnotin, if_pos ⟨h1.2, List.mem_cons.mpr (Or.inl h1.1)⟩]
      have hidx : List.indexOf l.id (a :: rest) = 0 := by
        rw [h1.1]
        exact List.indexOf_cons_self a rest
      rw [hidx]
      simp
    · rw [if_neg h1]
      by_cases h2 : l.section_id = sectionId
      · by_cases h3 : l.id = a
        · exact absurd ⟨h3, h2⟩ h1
        · by_cases h4 : l.id ∈ rest
          · rw [if_pos ⟨h2, h4⟩, if_pos ⟨h2, List.mem_cons_of_mem a h4⟩]
            have hidx : List.indexOf l.id (a :: rest) = List.indexOf l.id rest + 1 := by
              rw [List.indexOf_cons_ne rest (Ne.symm h3)]
            rw [hidx]
            have harith : idx + 1 + List.indexOf l.id rest =
                idx + (List.indexOf l.id rest + 1) := by omega
            rw [harith]
          · rw [if_neg (fun hc => h4 hc.2), if_neg ?_]
            intro hc
            rcases List.mem_cons.mp hc.2 with h | h
            · exact h3 h
            · exact h4 h
      · rw [if_neg (fun hc => h2 hc.1), if_neg (fun hc => h2 hc.1)]

/-- C2 counterexample: with section 1 in course 10 and section 2 in course
20, reordering course 10 with the id list [2, 1] — id 2 is foreign to the
scope — is not rejected: the endpoint answers success and still mutates
section 1 (its order becomes its position 2 in the supplied list). -/
theorem reorder_foreign_id_counterexample :
    (reorder_sections [⟨1, 1, 10⟩, ⟨2, 1, 20⟩] 10 [2, 1]).2 = true ∧
    ¬ (reorder_sections [⟨1, 1, 10⟩, ⟨2, 1, 20⟩] 10 [2, 1]).1 =
      [⟨1, 1, 10⟩, ⟨2, 1, 20⟩] := by decide

/-- C2 amended: the reorder endpoints do not validate the supplied ids
against the scope and never reject a non-empty request: they answer success,
assign every listed id that does belong to the scope the order equal to its
1-based position in the list, and silently skip (leave unmodified) ids that
are unknown or belong to a foreign scope, committing the remaining
assignments. -/
theorem reorder_skips_foreign_ids (secs : List SectionRow) (lecs : List LectureRow)
    (courseId sectionId : Nat) (ordS ordL : List Nat)
    (hndS : ordS.Nodup) (hndL : ordL.Nodup)
    (hcid : ¬ courseId = 0) (hsid : ¬ sectionId = 0)
    (hneS : ordS ≠ []) (hneL : ordL ≠ []) :
    (reorder_sections secs courseId ordS).2 = true ∧
    (reorder_sections secs courseId ordS).1 =
      secs.map (fun s =>
        if s.course_id = courseId ∧ s.id ∈ ordS then
          { s with order := 1 + List.indexOf s.id ordS }
        else s) ∧
    (reorder_lectures lecs sectionId ordL).2 = true ∧
    (reorder_lectures lecs sectionId ordL).1 =
      lecs.map (fun l =>
        if l.section_id = sectionId ∧ l.id ∈ ordL then
          { l with order := 1 + List.indexOf l.id ordL }
        else l) := by
  have hS : ¬ (courseId = 0 ∨ ordS.isEmpty = true) := by
    rintro (h | h)
    · exact hcid h
    · exact hneS (List.isEmpty_iff.mp h)
  have hL : ¬ (sectionId = 0 ∨ ordL.isEmpty = true) := by
    rintro (h | h)
    · exact hsid h
    · exact hneL (List.isEmpty_iff.mp h)
  unfold reorder_sections reorder_lectures
  rw [if_neg hS, if_neg hL]
  exact ⟨rfl, applySectionOrder_eq_map courseId ordS hndS 1 secs, rfl,
    applyLectureOrder_eq_map sectionId ordL hndL 1 lecs⟩

/-- Witness for the amended C2 at concrete inputs: the foreign id 2 is
skipped, section 1 receives order 2, the lone lecture receives order 1. -/
theorem reorder_skips_foreign_ids_witness :
    (reorder_sections [⟨1, 1, 10⟩, ⟨2, 1, 20⟩] 10 [2, 1]).1 =
      [⟨1, 2, 10⟩, ⟨2, 1, 20⟩] ∧
    (reorder_lectures [⟨4, 7, 3⟩] 3 [4]).1 = [⟨4, 1, 3⟩] := by
  have h := reorder_skips_foreign_ids [⟨1, 1, 10⟩, ⟨2, 1, 20⟩] [⟨4, 7, 3⟩]
    10 3 [2, 1] [4] (by decide) (by decide) (by decide) (by decide)
    (by decide) (by decide)
  exact ⟨h.2.1.trans (by decide), h.2.2.2.trans (by decide)⟩

/-- The renumbering loop emits exactly the consecutive orders i, i+1, .... -/
theorem assignOrdersS_orders : ∀ (i : Nat) (l : List SectionRow),
    (assignOrdersS i l).map (fun s => s.order) = List.range' i l.length := by
  intro i l
  induction l generalizing i with
  | nil => simp [assignOrdersS]
  | cons s rest ih =>
    show (i :: (assignOrdersS (i + 1) rest).map (fun s => s.order)) = _
    rw [ih (i + 1)]
    rw [List.length_cons, List.range'_succ]

/-- The renumbering loop keeps the number of rows. -/
theorem assignOrdersS_length : ∀ (i : Nat) (l : List SectionRow),
    (assignOrdersS i l).length = l.length := by
  intro i l
  induction l generalizing i with
  | nil => rfl
  | cons s rest ih =>
    show (assignOrdersS (i + 1) rest).length + 1 = rest.length + 1
    rw [ih (i + 1)]

/-- The renumbering loop keeps every row in the course it was in. -/
theorem assignOrdersS_course (cid : Nat) : ∀ (i : Nat) (l : List SectionRow),
    (∀ t ∈ l, t.course_id = cid) → ∀ s ∈ assignOrdersS i l, s.course_id = cid := by
  intro i l
  induction l generalizing i with
  | nil => intro _ s hs; simp [assignOrdersS] at hs
  | cons t rest ih =>
    intro h s hs
    rcases List.mem_cons.mp hs with rfl | hs2
    · exact h t (List.mem_cons_self t rest)
    · exact ih (i + 1) (fun u hu => h u (List.mem_cons_of_mem t hu)) s hs2

/-- Ordered insertion produces a permutation of consing. -/
theorem insertByOrderS_perm (s : SectionRow) : ∀ (l : List SectionRow),
    (insertByOrderS s l).Perm (s :: l) := by
  intro l
  induction l with
  | nil => exact List.Perm.refl _
  | cons t rest ih =>
    unfold insertByOrderS
    by_cases h : s.order ≤ t.order
    · rw [if_pos h]
    · rw [if_neg h]
      exact (ih.cons t).trans (List.Perm.swap s t rest)

/-- Insertion sort permutes its input. -/
theorem sortByOrderS_perm : ∀ (l : List SectionRow), (sortByOrderS l).Perm l := by
  intro l
  induction l with
  | nil => exact List.Perm.refl _
  | cons s rest ih =>
    unfold sortByOrderS
    exact (insertByOrderS_perm s (sortByOrderS rest)).trans (ih.cons s)

/-- A fold of max over a list bounded by n stays at most n. -/
theorem foldrMax_le (l : List Nat) (n : Nat) (h : ∀ x ∈ l, x ≤ n) :
    l.foldr max 0 ≤ n := by
  induction l with
  | nil => exact Nat.zero_le n
  | cons a t ih =>
    show max a (t.foldr max 0) ≤ n
    exact Nat.max_le.mpr ⟨h a (List.mem_cons_self a t),
      ih (fun x hx => h x (List.mem_cons_of_mem a hx))⟩

/-- A fold of max over a list that contains its upper bound n equals n. -/
theorem foldrMax_eq (l : List Nat) (n : Nat) (hmem : n ∈ l)
    (hub : ∀ x ∈ l, x ≤ n) : l.foldr max 0 = n := by
  induction l with
  | nil => simp at hmem
  | cons a t ih =>
    show max a (t.foldr max 0) = n
    rcases List.mem_cons.mp hmem with rfl | hmem2
    · exact Nat.max_eq_left (foldrMax_le t n (fun x hx => hub x (List.mem_cons_of_mem n hx)))
    · rw [ih hmem2 (fun x hx => hub x (List.mem_cons_of_mem a hx))]
      exact Nat.max_eq_right (hub a (List.mem_cons_self a t))

/-- Mapping every element of a duplicate-free list to its own index yields
the index range. -/
theorem indexOf_self_map : ∀ (l : List Nat), l.Nodup →
    l.map (fun x => List.indexOf x l) = List.range l.length := by
  intro l
  induction l with
  | nil => simp
  | cons a t ih =>
    intro hnd
    obtain ⟨ha, ht⟩ := List.nodup_cons.mp hnd
    show List.indexOf a (a :: t) :: t.map (fun x => List.indexOf x (a :: t)) = _
    rw [List.indexOf_cons_self]
    have hcong : t.map (fun x => List.indexOf x (a :: t)) =
        t.map (fun x => List.indexOf x t + 1) := by
      apply List.map_congr_left
      intro x hx
      have hne : a ≠ x := fun he => ha (he ▸ hx)
      rw [List.indexOf_cons_ne t hne]
    rw [hcong]
    have hmm : t.map (fun x => List.indexOf x t + 1) =
        (t.map (fun x => List.indexOf x t)).map (fun k => k + 1) := by
      rw [List.map_map]
      rfl
    rw [hmm, ih ht, List.length_cons, List.range_succ_eq_map]

/-- Deleting a section leaves the deleted section's course with densely
renumbered orders 1..count. -/
theorem delete_section_dense (sectionId : Nat) (secs : List SectionRow)
    (sec : SectionRow) (hfind : secs.find? (fun s => s.id = sectionId) = some sec) :
    denseSectionScope sec.course_id (delete_section sectionId secs) := by
  have hres : delete_section sectionId secs =
      (secs.filter (fun s => ¬ s.id = sectionId)).filter
          (fun s => ¬ s.course_id = sec.course_id) ++
        assignOrdersS 1 (sortByOrderS ((secs.filter (fun s => ¬ s.id = sectionId)).filter
          (fun s => s.course_id = sec.course_id))) := by
    unfold delete_section
    rw [hfind]
  rw [hres]
  unfold denseSectionScope scopeSections
  rw [List.filter_append]
  have h1 : ((secs.filter (fun s => ¬ s.id = sectionId)).filter
      (fun s => ¬ s.course_id = sec.course_id)).filter
        (fun s => s.course_id = sec.course_id) = [] := by
    rw [List.filter_eq_nil_iff]
    intro a hmem
    have := (List.mem_filter.mp hmem).2
    simp at this
    simp [this]
  have h2 : (assignOrdersS 1 (sortByOrderS ((secs.filter (fun s => ¬ s.id = sectionId)).filter
      (fun s => s.course_id = sec.course_id)))).filter
        (fun s => s.course_id = sec.course_id) =
      assignOrdersS 1 (sortByOrderS ((secs.filter (fun s => ¬ s.id = sectionId)).filter
        (fun s => s.course_id = sec.course_id))) := by
    rw [List.filter_eq_self]
    intro a ha
    have hcourse : a.course_id = sec.course_id := by
      refine assignOrdersS_course sec.course_id 1 _ ?_ a ha
      intro t ht
      have ht2 := (sortByOrderS_perm _).subset ht
      have := (List.mem_filter.mp ht2).2
      simpa using this
    simp [hcourse]
  rw [h1, h2, List.nil_append, assignOrdersS_orders, assignOrdersS_length]

/-- Appending a section to a dense course keeps the course dense: the new
row receives order max+1 = count+1 (order 1 in an empty course). -/
theorem create_section_dense (courseId newId : Nat) (secs : List SectionRow)
    (hdense : denseSectionScope courseId secs) :
    denseSectionScope courseId (create_section courseId newId secs) := by
  have happ : scopeSections courseId (create_section courseId newId secs) =
      scopeSections courseId secs ++
        [⟨newId, nextSectionOrder courseId secs, courseId⟩] := by
    unfold create_section scopeSections
    rw [List.filter_append]
    simp
  unfold denseSectionScope
  rw [happ, List.map_append, List.length_append]
  by_cases hsc : scopeSections courseId secs = []
  · rw [hsc]
    have hnext : nextSectionOrder courseId secs = 1 := by
      unfold nextSectionOrder
      rw [hsc]
      rfl
    rw [hnext]
    simp [List.range']
  · unfold denseSectionScope at hdense
    have hlen1 : 1 ≤ (scopeSections courseId secs).length :=
      Nat.pos_of_ne_zero (fun h => hsc (List.eq_nil_of_length_eq_zero h))
    have hmax : (((scopeSections courseId secs)).map (fun s => s.order)).foldr max 0 =
        (scopeSections courseId secs).length := by
      apply foldrMax_eq
      · apply hdense.mem_iff.mpr
        rw [List.mem_range'_1]
        omega
      · intro x hx
        have := hdense.mem_iff.mp hx
        rw [List.mem_range'_1] at this
        omega
    have hnext : nextSectionOrder courseId secs =
        (scopeSections courseId secs).length + 1 := by
      unfold nextSectionOrder
      rw [if_neg (by simp [hsc]), hmax]
    rw [hnext]
    have hconcat : List.range' 1 ((scopeSections courseId secs).length + 1) =
        List.range' 1 (scopeSections courseId secs).length ++
          [(scopeSections courseId secs).length + 1] := by
      rw [List.range'_concat]
      congr 1
      simp [Nat.add_comm]
    simp only [List.map_cons, List.map_nil, List.length_singleton]
    rw [hconcat]
    exact hdense.append_right _

/-- When the supplied id list is exactly a permutation of the course's
section ids, the reorder loop leaves the course dense: every section gets
the order of its 1-based position in the list. -/
theorem reorder_sections_perm_dense (courseId : Nat) (secs : List SectionRow)
    (ordS : List Nat) (hnd : ordS.Nodup)
    (hperm : ordS.Perm ((scopeSections courseId secs).map (fun s => s.id)))
    (hcid : ¬ courseId = 0) (hne : ordS ≠ []) :
    denseSectionScope courseId ((reorder_sections secs courseId ordS).1) := by
  have hres : (reorder_sections secs courseId ordS).1 =
      secs.map (fun s =>
        if s.course_id = courseId ∧ s.id ∈ ordS then
          { s with order := 1 + List.indexOf s.id ordS }
        else s) := by
    unfold reorder_sections
    rw [if_neg ?hcond]
    case hcond =>
      rintro (h | h)
      · exact hcid h
      · exact hne (List.isEmpty_iff.mp h)
    exact applySectionOrder_eq_map courseId ordS hnd 1 secs
  rw [hres]
  have hfc : ∀ s : SectionRow,
      ((fun s => if s.course_id = courseId ∧ s.id ∈ ordS then
          { s with order := 1 + List.indexOf s.id ordS } else s) s).course_id =
        s.course_id := by
    intro s
    dsimp only
    by_cases h : s.course_id = courseId ∧ s.id ∈ ordS
    · rw [if_pos h]
    · rw [if_neg h]
  unfold denseSectionScope scopeSections
  rw [List.filter_map]
  have hfilt : secs.filter ((fun s => decide (s.course_id = courseId)) ∘
      (fun s => if s.course_id = courseId ∧ s.id ∈ ordS then
        { s with order := 1 + List.indexOf s.id ordS } else s)) =
      secs.filter (fun s => decide (s.course_id = courseId)) := by
    apply List.filter_congr
    intro s _
    simp only [Function.comp_apply, hfc s]
  rw [hfilt, List.map_map, List.length_map]
  have hpt : ∀ s ∈ secs.filter (fun s => decide (s.course_id = courseId)),
      ((fun s => s.order) ∘ (fun s => if s.course_id = courseId ∧ s.id ∈ ordS then
          { s with order := 1 + List.indexOf s.id ordS } else s)) s =
        ((fun x => 1 + List.indexOf x ordS) ∘ (fun s : SectionRow => s.id)) s := by
    intro s hs
    have h1 : s.course_id = courseId := by
      have := (List.mem_filter.mp hs).2
      simpa using this
    have h2 : s.id ∈ ordS := by
      apply hperm.mem_iff.mpr
      exact List.mem_map_of_mem (fun t : SectionRow => t.id) hs
    simp only [Function.comp_apply]
    rw [if_pos (And.intro h1 h2)]
  rw [List.map_congr_left hpt, ← List.map_map]
  have hlen : (secs.filter (fun s => decide (s.course_id = courseId))).length =
      ordS.length := by
    have h := hperm.length_eq
    unfold scopeSections at h
    rw [List.length_map] at h
    omega
  rw [hlen]
  have hmap : ordS.map (fun x => 1 + List.indexOf x ordS) =
      List.range' 1 ordS.length := by
    have h1 : ordS.map (fun x => 1 + List.indexOf x ordS) =
        (ordS.map (fun x => List.indexOf x ordS)).map (fun k => 1 + k) := by
      rw [List.map_map]
      rfl
    rw [h1, indexOf_self_map ordS hnd, ← List.range'_eq_map_range]
  have hp2 := hperm.map (fun x => 1 + List.indexOf x ordS)
  unfold scopeSections at hp2
  rw [hmap] at hp2
  exact hp2.symm

/-- Lecture renumbering emits the consecutive orders i, i+1, .... -/
theorem assignOrdersL_orders : ∀ (i : Nat) (l : List LectureRow),
    (assignOrdersL i l).map (fun x => x.order) = List.range' i l.length := by
  intro i l
  induction l generalizing i with
  | nil => simp [assignOrdersL]
  | cons x rest ih =>
    show (i :: (assignOrdersL (i + 1) rest).map (fun x => x.order)) = _
    rw [ih (i + 1)]
    rw [List.length_cons, List.range'_succ]

/-- Lecture renumbering keeps the number of rows. -/
theorem assignOrdersL_length : ∀ (i : Nat) (l : List LectureRow),
    (assignOrdersL i l).length = l.length := by
  intro i l
  induction l generalizing i with
  | nil => rfl
  | cons x rest ih =>
    show (assignOrdersL (i + 1) rest).length + 1 = rest.length + 1
    rw [ih (i + 1)]

/-- Lecture renumbering keeps every row in the section it was in. -/
theorem assignOrdersL_section (sid : Nat) : ∀ (i : Nat) (l : List LectureRow),
    (∀ t ∈ l, t.section_id = sid) → ∀ x ∈ assignOrdersL i l, x.section_id = sid := by
  intro i l
  induction l generalizing i with
  | nil => intro _ x hx; simp [assignOrdersL] at hx
  | cons t rest ih =>
    intro h x hx
    rcases List.mem_cons.mp hx with rfl | hx2
    · exact h t (List.mem_cons_self t rest)
    · exact ih (i + 1) (fun u hu => h u (List.mem_cons_of_mem t hu)) x hx2

/-- Ordered insertion of a lecture row permutes consing. -/
theorem insertByOrderL_perm (x : LectureRow) : ∀ (l : List LectureRow),
    (insertByOrderL x l).Perm (x :: l) := by
  intro l
  induction l with
  | nil => exact List.Perm.refl _
  | cons t rest ih =>
    unfold insertByOrderL
    by_cases h : x.order ≤ t.order
    · rw [if_pos h]
    · rw [if_neg h]
      exact (ih.cons t).trans (List.Perm.swap x t rest)

/-- Insertion sort of lecture rows permutes its input. -/
theorem sortByOrderL_perm : ∀ (l : List LectureRow), (sortByOrderL l).Perm l := by
  intro l
  induction l with
  | nil => exact List.Perm.refl _
  | cons x rest ih =>
    unfold sortByOrderL
    exact (insertByOrderL_perm x (sortByOrderL rest)).trans (ih.cons x)

/-- Deleting a lecture leaves the deleted lecture's section with densely
renumbered orders 1..count. -/
theorem delete_lecture_dense (lectureId : Nat) (lecs : List LectureRow)
    (lec : LectureRow) (hfind : lecs.find? (fun l => l.id = lectureId) = some lec) :
    denseLectureScope lec.section_id (delete_lecture lectureId lecs) := by
  have hres : delete_lecture lectureId lecs =
      (lecs.filter (fun l => ¬ l.id = lectureId)).filter
          (fun l => ¬ l.section_id = lec.section_id) ++
        assignOrdersL 1 (sortByOrderL ((lecs.filter (fun l => ¬ l.id = lectureId)).filter
          (fun l => l.section_id = lec.section_id))) := by
    unfold delete_lecture
    rw [hfind]
  rw [hres]
  unfold denseLectureScope scopeLectures
  rw [List.filter_append]
  have h1 : ((lecs.filter (fun l => ¬ l.id = lectureId)).filter
      (fun l => ¬ l.section_id = lec.section_id)).filter
        (fun l => l.section_id = lec.section_id) = [] := by
    rw [List.filter_eq_nil_iff]
    intro a hmem
    have := (List.mem_filter.mp hmem).2
    simp at this
    simp [this]
  have h2 : (assignOrdersL 1 (sortByOrderL ((lecs.filter (fun l => ¬ l.id = lectureId)).filter
      (fun l => l.section_id = lec.section_id)))).filter
        (fun l => l.section_id = lec.section_id) =
      assignOrdersL 1 (sortByOrderL ((lecs.filter (fun l => ¬ l.id = lectureId)).filter
        (fun l => l.section_id = lec.section_id))) := by
    rw [List.filter_eq_self]
    intro a ha
    have hsec2 : a.section_id = lec.section_id := by
      refine assignOrdersL_section lec.section_id 1 _ ?_ a ha
      intro t ht
      have ht2 := (sortByOrderL_perm _).subset ht
      have := (List.mem_filter.mp ht2).2
      simpa using this
    simp [hsec2]
  rw [h1, h2, List.nil_append, assignOrdersL_orders, assignOrdersL_length]

/-- Appending a lecture to a dense section keeps the section dense. -/
theorem create_lecture_dense (sectionId newId : Nat) (lecs : List LectureRow)
    (hdense : denseLectureScope sectionId lecs) :
    denseLectureScope sectionId (create_lecture sectionId newId lecs) := by
  have happ : scopeLectures sectionId (create_lecture sectionId newId lecs) =
      scopeLectures sectionId lecs ++
        [⟨newId, nextLectureOrder sectionId lecs, sectionId⟩] := by
    unfold create_lecture scopeLectures
    rw [List.filter_append]
    simp
  unfold denseLectureScope
  rw [happ, List.map_append, List.length_append]
  by_cases hsc : scopeLectures sectionId lecs = []
  · rw [hsc]
    have hnext : nextLectureOrder sectionId lecs = 1 := by
      unfold nextLectureOrder
      rw [hsc]
      rfl
    rw [hnext]
    simp [List.range']
  · unfold denseLectureScope at hdense
    have hlen1 : 1 ≤ (scopeLectures sectionId lecs).length :=
      Nat.pos_of_ne_zero (fun h => hsc (List.eq_nil_of_length_eq_zero h))
    have hmax : (((scopeLectures sectionId lecs)).map (fun x => x.order)).foldr max 0 =
        (scopeLectures sectionId lecs).length := by
      apply foldrMax_eq
      · apply hdense.mem_iff.mpr
        rw [List.mem_range'_1]
        omega
      · intro x hx
        have := hdense.mem_iff.mp hx
        rw [List.mem_range'_1] at this
        omega
    have hnext : nextLectureOrder sectionId lecs =
        (scopeLectures sectionId lecs).length + 1 := by
      unfold nextLectureOrder
      rw [if_neg (by simp [hsc]), hmax]
    rw [hnext]
    have hconcat : List.range' 1 ((scopeLectures sectionId lecs).length + 1) =
        List.range' 1 (scopeLectures sectionId lecs).length ++
          [(scopeLectures sectionId lecs).length + 1] := by
      rw [List.range'_concat]
      congr 1
      simp [Nat.add_comm]
    simp only [List.map_cons, List.map_nil, List.length_singleton]
    rw [hconcat]
    exact hdense.append_right _

/-- When the supplied id list is exactly a permutation of the section's
lecture ids, the reorder loop leaves the section dense. -/
theorem reorder_lectures_perm_dense (sectionId : Nat) (lecs : List LectureRow)
    (ordL : List Nat) (hnd : ordL.Nodup)
    (hperm : ordL.Perm ((scopeLectures sectionId lecs).map (fun l => l.id)))
    (hsid : ¬ sectionId = 0) (hne : ordL ≠ []) :
    denseLectureScope sectionId ((reorder_lectures lecs sectionId ordL).1) := by
  have hres : (reorder_lectures lecs sectionId ordL).1 =
      lecs.map (fun l =>
        if l.section_id = sectionId ∧ l.id ∈ ordL then
          { l with order := 1 + List.indexOf l.id ordL }
        else l) := by
    unfold reorder_lectures
    rw [if_neg ?hcond]
    case hcond =>
      rintro (h | h)
      · exact hsid h
      · exact hne (List.isEmpty_iff.mp h)
    exact applyLectureOrder_eq_map sectionId ordL hnd 1 lecs
  rw [hres]
  have hfc : ∀ l : LectureRow,
      ((fun l => if l.section_id = sectionId ∧ l.id ∈ ordL then
          { l with order := 1 + List.indexOf l.id ordL } else l) l).section_id =
        l.section_id := by
    intro l
    dsimp only
    by_cases h : l.section_id = sectionId ∧ l.id ∈ ordL
    · rw [if_pos h]
    · rw [if_neg h]
  unfold denseLectureScope scopeLectures
  rw [List.filter_map]
  have hfilt : lecs.filter ((fun l => decide (l.section_id = sectionId)) ∘
      (fun l => if l.section_id = sectionId ∧ l.id ∈ ordL then
        { l with order := 1 + List.indexOf l.id ordL } else l)) =
      lecs.filter (fun l => decide (l.section_id = sectionId)) := by
    apply List.filter_congr
    intro l _
    simp only [Function.comp_apply, hfc l]
  rw [hfilt, List.map_map, List.length_map]
  have hpt : ∀ l ∈ lecs.filter (fun l => decide (l.section_id = sectionId)),
      ((fun x => x.order) ∘ (fun l => if l.section_id = sectionId ∧ l.id ∈ ordL then
          { l with order := 1 + List.indexOf l.id ordL } else l)) l =
        ((fun x => 1 + List.indexOf x ordL) ∘ (fun l : LectureRow => l.id)) l := by
    intro l hl
    have h1 : l.section_id = sectionId := by
      have := (List.mem_filter.mp hl).2
      simpa using this
    have h2 : l.id ∈ ordL := by
      apply hperm.mem_iff.mpr
      exact List.mem_map_of_mem (fun t : LectureRow => t.id) hl
    simp only [Function.comp_apply]
    rw [if_pos (And.intro h1 h2)]
  rw [List.map_congr_left hpt, ← List.map_map]
  have hlen : (lecs.filter (fun l => decide (l.section_id = sectionId))).length =
      ordL.length := by
    have h := hperm.length_eq
    unfold scopeLectures at h
    rw [List.length_map] at h
    omega
  rw [hlen]
  have hmap : ordL.map (fun x => 1 + List.indexOf x ordL) =
      List.range' 1 ordL.length := by
    have h1 : ordL.map (fun x => 1 + List.indexOf x ordL) =
        (ordL.map (fun x => List.indexOf x ordL)).map (fun k => 1 + k) := by
      rw [List.map_map]
      rfl
    rw [h1, indexOf_self_map ordL hnd, ← List.range'_eq_map_range]
  have hp2 := hperm.map (fun x => 1 + List.indexOf x ordL)
  unfold scopeLectures at hp2
  rw [hmap] at hp2
  exact hp2.symm

/-- C3 counterexample: course 10 holds one section with order 1 (dense); a
reorder request whose id list [99, 1] contains the foreign id 99 is accepted
and assigns section 1 the order 2 — afterwards the only order in the scope
is 2, not the dense 1..1, so density does not survive every reorder. -/
theorem order_density_counterexample :
    denseSectionScope 10 [⟨1, 1, 10⟩] ∧
    (reorder_sections [⟨1, 1, 10⟩] 10 [99, 1]).2 = true ∧
    ¬ denseSectionScope 10 ((reorder_sections [⟨1, 1, 10⟩] 10 [99, 1]).1) := by
  decide

/-- C3 amended: density of the sibling orders (1..count) is preserved by
`delete` (which renumbers the survivors unconditionally) and by
`append_child` (max existing order + 1, or 1 in an empty scope, given the
scope was dense); a `reorder` preserves it when the supplied id list is
exactly a permutation of the scope's child ids, but a reorder whose list
contains foreign or unknown ids is still accepted and can leave gaps, as
the counterexample shows. -/
theorem order_density_amended :
    (∀ sectionId secs sec, secs.find? (fun s => s.id = sectionId) = some sec →
      denseSectionScope sec.course_id (delete_section sectionId secs)) ∧
    (∀ courseId newId secs, denseSectionScope courseId secs →
      denseSectionScope courseId (create_section courseId newId secs)) ∧
    (∀ courseId secs ordS, ordS.Nodup →
      ordS.Perm ((scopeSections courseId secs).map (fun s => s.id)) →
      ¬ courseId = 0 → ordS ≠ [] →
      denseSectionScope courseId ((reorder_sections secs courseId ordS).1)) ∧
    (∀ lectureId lecs lec, lecs.find? (fun l => l.id = lectureId) = some lec →
      denseLectureScope lec.section_id (delete_lecture lectureId lecs)) ∧
    (∀ sectionId newId lecs, denseLectureScope sectionId lecs →
      denseLectureScope sectionId (create_lecture sectionId newId lecs)) ∧
    (∀ sectionId lecs ordL, ordL.Nodup →
      ordL.Perm ((scopeLectures sectionId lecs).map (fun l => l.id)) →
      ¬ sectionId = 0 → ordL ≠ [] →
      denseLectureScope sectionId ((reorder_lectures lecs sectionId ordL).1)) :=
  ⟨fun sectionId secs sec h => delete_section_dense sectionId secs sec h,
   fun courseId newId secs h => create_section_dense courseId newId secs h,
   fun courseId secs ordS h1 h2 h3 h4 =>
     reorder_sections_perm_dense courseId secs ordS h1 h2 h3 h4,
   fun lectureId lecs lec h => delete_lecture_dense lectureId lecs lec h,
   fun sectionId newId lecs h => create_lecture_dense sectionId newId lecs h,
   fun sectionId lecs ordL h1 h2 h3 h4 =>
     reorder_lectures_perm_dense sectionId lecs ordL h1 h2 h3 h4⟩

/-- Witness for the amended C3 at concrete inputs: append into a dense
course, delete from a two-lecture section, and a reorder with a full
permutation of the scope ids. -/
theorem order_density_amended_witness :
    denseSectionScope 10 (create_section 10 5 [⟨1, 1, 10⟩]) ∧
    denseLectureScope 3 (delete_lecture 2 [⟨1, 1, 3⟩, ⟨2, 2, 3⟩, ⟨9, 1, 4⟩]) ∧
    denseSectionScope 10 ((reorder_sections [⟨1, 1, 10⟩, ⟨2, 2, 10⟩] 10 [2, 1]).1) :=
  ⟨order_density_amended.2.1 10 5 [⟨1, 1, 10⟩] (by decide),
   order_density_amended.2.2.2.1 2 [⟨1, 1, 3⟩, ⟨2, 2, 3⟩, ⟨9, 1, 4⟩] ⟨2, 2, 3⟩ (by decide),
   order_density_amended.2.2.1 10 [⟨1, 1, 10⟩, ⟨2, 2, 10⟩] [2, 1] (by decide)
     (by decide) (by decide) (by decide)⟩

/-- Unfolding of the completed-row filter into its three conditions. -/
theorem completedRowFor_iff (sections : List SectionRow) (lectures : List LectureRow)
    (courseId userId : Nat) (p : LectureProgressRow) :
    completedRowFor sections lectures courseId userId p = true ↔
      p.user_id = userId ∧ p.completed = true ∧
        ∃ l ∈ lectures, l.id = p.lecture_id ∧
          lectureInCourse sections courseId l = true := by
  unfold completedRowFor
  simp [List.any_eq_true]

/-- Unfolding of the per-lecture completion test. -/
theorem lectureCompletedFor_iff (lps : List LectureProgressRow) (userId : Nat)
    (l : LectureRow) :
    lectureCompletedFor lps userId l = true ↔
      ∃ p ∈ lps, p.user_id = userId ∧ p.lecture_id = l.id ∧ p.completed = true := by
  unfold lectureCompletedFor
  simp [List.any_eq_true]

/-- The completed-lectures count of `get_progress` is bounded by the number
of course lectures, and reaches it exactly when every course lecture has a
completed progress row — given the primary-key uniqueness of lecture ids and
at most one progress row per (user, lecture) pair. -/
theorem completed_count_le_iff (sections : List SectionRow)
    (lectures : List LectureRow) (lps : List LectureProgressRow)
    (courseId userId : Nat)
    (hlecId : (lectures.map (fun l => l.id)).Nodup)
    (hpairs : (lps.map (fun p => (p.user_id, p.lecture_id))).Nodup) :
    lps.countP (completedRowFor sections lectures courseId userId) ≤
      (courseLectures sections lectures courseId).length ∧
    (lps.countP (completedRowFor sections lectures courseId userId) =
        (courseLectures sections lectures courseId).length ↔
      ∀ l ∈ courseLectures sections lectures courseId,
        lectureCompletedFor lps userId l = true) := by
  have hcount : lps.countP (completedRowFor sections lectures courseId userId) =
      ((lps.filter (completedRowFor sections lectures courseId userId)).map
        (fun p => p.lecture_id)).length := by
    rw [List.countP_eq_length_filter, List.length_map]
  have hrow : ∀ p ∈ lps.filter (completedRowFor sections lectures courseId userId),
      p.user_id = userId ∧ p.completed = true ∧
        ∃ l ∈ lectures, l.id = p.lecture_id ∧
          lectureInCourse sections courseId l = true := by
    intro p hp
    exact (completedRowFor_iff sections lectures courseId userId p).mp
      (List.of_mem_filter hp)
  have hIdsNodup : ((lps.filter (completedRowFor sections lectures courseId userId)).map
      (fun p => p.lecture_id)).Nodup := by
    apply List.Nodup.map_on
    · intro x hx y hy hxy
      have hux := (hrow x hx).1
      have huy := (hrow y hy).1
      exact List.inj_on_of_nodup_map hpairs
        ((List.filter_sublist lps).subset hx)
        ((List.filter_sublist lps).subset hy)
        (by rw [hux, huy, hxy])
    · exact (List.Nodup.of_map _ hpairs).sublist (List.filter_sublist lps)
  have hcourseNodup : ((courseLectures sections lectures courseId).map
      (fun l => l.id)).Nodup := by
    apply hlecId.sublist
    exact List.Sublist.map (fun l => l.id) (List.filter_sublist lectures)
  have hsubset : ∀ x ∈ (lps.filter (completedRowFor sections lectures courseId userId)).map
      (fun p => p.lecture_id),
      x ∈ (courseLectures sections lectures courseId).map (fun l => l.id) := by
    intro x hx
    rcases List.mem_map.mp hx with ⟨p, hp, rfl⟩
    rcases (hrow p hp).2.2 with ⟨l, hl, hlid, hlc⟩
    have hlCL : l ∈ courseLectures sections lectures courseId := by
      unfold courseLectures
      exact List.mem_filter.mpr ⟨hl, hlc⟩
    rw [← hlid]
    exact List.mem_map_of_mem (fun l => l.id) hlCL
  have hcardsub : ((lps.filter (completedRowFor sections lectures courseId userId)).map
      (fun p => p.lecture_id)).toFinset ⊆
      ((courseLectures sections lectures courseId).map (fun l => l.id)).toFinset := by
    intro a ha
    rw [List.mem_toFinset] at ha ⊢
    exact hsubset a ha
  have hclen : ((courseLectures sections lectures courseId).map
      (fun l => l.id)).length = (courseLectures sections lectures courseId).length :=
    List.length_map _ _
  have hle : lps.countP (completedRowFor sections lectures courseId userId) ≤
      (courseLectures sections lectures courseId).length := by
    rw [hcount, ← hclen]
    rw [← List.toFinset_card_of_nodup hIdsNodup, ← List.toFinset_card_of_nodup hcourseNodup]
    exact Finset.card_le_card hcardsub
  refine ⟨hle, ?_, ?_⟩
  · intro heq
    have hfeq : ((lps.filter (completedRowFor sections lectures courseId userId)).map
        (fun p => p.lecture_id)).toFinset =
        ((courseLectures sections lectures courseId).map (fun l => l.id)).toFinset := by
      apply Finset.eq_of_subset_of_card_le hcardsub
      rw [List.toFinset_card_of_nodup hIdsNodup, List.toFinset_card_of_nodup hcourseNodup]
      rw [hclen, ← hcount, heq]
    intro l hl
    have hlid : l.id ∈ ((lps.filter (completedRowFor sections lectures courseId userId)).map
        (fun p => p.lecture_id)).toFinset := by
      rw [hfeq, List.mem_toFinset]
      exact List.mem_map_of_mem (fun l => l.id) hl
    rw [List.mem_toFinset] at hlid
    rcases List.mem_map.mp hlid with ⟨p, hp, hpl⟩
    rw [lectureCompletedFor_iff]
    exact ⟨p, (List.filter_sublist lps).subset hp, (hrow p hp).1, hpl, (hrow p hp).2.1⟩
  · intro hall
    have hsup : ∀ x ∈ (courseLectures sections lectures courseId).map (fun l => l.id),
        x ∈ (lps.filter (completedRowFor sections lectures courseId userId)).map
          (fun p => p.lecture_id) := by
      intro x hx
      rcases List.mem_map.mp hx with ⟨l, hl, rfl⟩
      rcases (lectureCompletedFor_iff lps userId l).mp (hall l hl) with
        ⟨p, hp, hpu, hpl, hpc⟩
      have hpmem : p ∈ lps.filter (completedRowFor sections lectures courseId userId) := by
        apply List.mem_filter.mpr
        refine ⟨hp, ?_⟩
        rw [completedRowFor_iff]
        refine ⟨hpu, hpc, l, ?_, by rw [hpl], ?_⟩
        · exact (List.filter_sublist lectures).subset hl
        · exact (List.mem_filter.mp hl).2
      rw [← hpl]
      exact List.mem_map_of_mem (fun p => p.lecture_id) hpmem
    have hcardsup : ((courseLectures sections lectures courseId).map
        (fun l => l.id)).toFinset ⊆
        ((lps.filter (completedRowFor sections lectures courseId userId)).map
          (fun p => p.lecture_id)).toFinset := by
      intro a ha
      rw [List.mem_toFinset] at ha ⊢
      exact hsup a ha
    have := Finset.card_le_card hcardsup
    rw [List.toFinset_card_of_nodup hIdsNodup, List.toFinset_card_of_nodup hcourseNodup,
      hclen, ← hcount] at this
    omega

/-- The nearest-integer rounding of `a / b` differs from the exact fraction
by at most half: doubled and cleared of denominators, `2 * a` and
`2 * (b * rndNE a b)` are within `b` of each other. -/
theorem rndNE_bounds (a b : Nat) (hb : 0 < b) :
    2 * a ≤ 2 * (b * rndNE a b) + b ∧ 2 * (b * rndNE a b) ≤ 2 * a + b := by
  unfold rndNE
  have hdm : b * (a / b) + a % b = a := Nat.div_add_mod a b
  have hlt : a % b < b := Nat.mod_lt a hb
  have hmul : b * (a / b + 1) = b * (a / b) + b := by ring
  split_ifs <;> omega

/-- Rounding an exact multiple of the denominator is exact. -/
theorem rndNE_mul (b k : Nat) (hb : 0 < b) : rndNE (b * k) b = k := by
  unfold rndNE
  rw [Nat.mul_mod_right, Nat.mul_div_cancel_left k hb, if_pos (by omega)]

/-- With sufficient fuel, `ilog2F` computes the floor of the base-2
logarithm. -/
theorem ilog2F_spec : ∀ (fuel n : Nat), 0 < n → n ≤ fuel →
    2 ^ ilog2F fuel n ≤ n ∧ n < 2 ^ (ilog2F fuel n + 1) := by
  intro fuel
  induction fuel with
  | zero => intro n h1 h2; omega
  | succ fuel ih =>
    intro n h1 h2
    by_cases hn : n ≤ 1
    · simp only [ilog2F, if_pos hn]
      constructor
      · simpa using h1
      · have : (2:Nat) ^ (0 + 1) = 2 := by norm_num
        omega
    · simp only [ilog2F, if_neg hn]
      obtain ⟨ha, hb⟩ := ih (n / 2) (by omega) (by omega)
      have hp1 : (2:Nat) ^ (ilog2F fuel (n / 2) + 1) = 2 * 2 ^ ilog2F fuel (n / 2) := by
        rw [pow_succ]; ring
      have hp2 : (2:Nat) ^ (ilog2F fuel (n / 2) + 1 + 1) =
          2 * 2 ^ (ilog2F fuel (n / 2) + 1) := by
        rw [pow_succ]; ring
      omega

/-- The fuelled base-2 logarithm of 1 is 0 at every fuel. -/
theorem ilog2F_one : ∀ (fuel : Nat), ilog2F fuel 1 = 0 := by
  intro fuel
  cases fuel with
  | zero => rfl
  | succ fuel => simp [ilog2F]

/-- With sufficient fuel, `negExpF` finds the least `j ≥ 1` such that
`2 ^ j * c ≥ t`, i.e. the negated binary exponent of `c / t < 1`. -/
theorem negExpF_spec : ∀ (fuel c t : Nat), 0 < c → c < t → t ≤ 2 ^ fuel * c →
    t ≤ 2 ^ negExpF fuel c t * c ∧
      2 ^ (negExpF fuel c t - 1) * c < t ∧ 1 ≤ negExpF fuel c t := by
  intro fuel
  induction fuel with
  | zero =>
    intro c t h1 h2 h3
    simp only [pow_zero, one_mul] at h3
    omega
  | succ fuel ih =>
    intro c t h1 h2 h3
    simp only [negExpF]
    by_cases h : t ≤ 2 * c
    · rw [if_pos h]
      refine ⟨by simpa [pow_one] using h, by simpa using h2, le_refl 1⟩
    · rw [if_neg h]
      have h3' : t ≤ 2 ^ fuel * (2 * c) := by
        calc t ≤ 2 ^ (fuel + 1) * c := h3
          _ = 2 ^ fuel * (2 * c) := by rw [pow_succ]; ring
      obtain ⟨ha, hb, hc⟩ := ih (2 * c) t (by omega) (by omega) h3'
      refine ⟨?_, ?_, by omega⟩
      · calc t ≤ 2 ^ negExpF fuel (2 * c) t * (2 * c) := ha
          _ = 2 ^ (negExpF fuel (2 * c) t + 1) * c := by rw [pow_succ]; ring
      · obtain ⟨j0, hj0⟩ : ∃ j0, negExpF fuel (2 * c) t = j0 + 1 :=
          ⟨negExpF fuel (2 * c) t - 1, by omega⟩
        rw [hj0]
        have heq : (2:Nat) ^ (j0 + 1 + 1 - 1) * c = 2 ^ (j0 + 1 - 1) * (2 * c) := by
          simp only [Nat.add_sub_cancel]
          rw [pow_succ]; ring
        rw [heq, ← hj0]
        exact hb

/-- Core bound for the float pipeline on a proper fraction: with `c < t` and
`t ≤ 2 ^ 52`, the correctly rounded double of `c / t` stays below
`1 - 2 ^ (-53)`, so after the rounded multiplication by 100 the truncated
result stays below 100.  The variables `j, m, L, m2` name the intermediate
values of `pyFloatPct`. -/
theorem pct_core_lt (c t j m L m2 : Nat)
    (hct : c < t) (ht52 : t ≤ 2 ^ 52)
    (hj1 : t ≤ 2 ^ j * c) (hj3 : 1 ≤ j)
    (hm : m = rndNE (c * 2 ^ (52 + j)) t)
    (hL : L = ilog2F (m * 100) (m * 100))
    (hm2 : m2 = rndNE (m * 100) (2 ^ (L - 52))) :
    52 ≤ L ∧
      floorPosVal m2 ((L : Int) + (-(j : Int) - 52) - 52) ≤ 99 := by
  have ht : 0 < t := by omega
  have hsplit : (2:Nat) ^ j = 2 * 2 ^ (j - 1) := by
    conv_lhs => rw [show j = (j - 1) + 1 by omega]
    rw [pow_succ]; ring
  have hpow1 : (1:Nat) ≤ 2 ^ (j - 1) := Nat.one_le_two_pow
  obtain ⟨hrb1, hrb2⟩ := rndNE_bounds (c * 2 ^ (52 + j)) t ht
  rw [← hm] at hrb1 hrb2
  have hm_low : 2 ^ 52 ≤ m := by
    have h1 : t * 2 ^ 52 ≤ c * 2 ^ (52 + j) := by
      calc t * 2 ^ 52 ≤ 2 ^ j * c * 2 ^ 52 := Nat.mul_le_mul_right _ hj1
        _ = c * 2 ^ (52 + j) := by rw [pow_add]; ring
    have h3 : t * (2 * 2 ^ 52) ≤ t * (2 * m + 1) := by
      calc t * (2 * 2 ^ 52) = 2 * (t * 2 ^ 52) := by ring
        _ ≤ 2 * (c * 2 ^ (52 + j)) := by omega
        _ ≤ 2 * (t * m) + t := hrb1
        _ = t * (2 * m + 1) := by ring
    have h4 := Nat.le_of_mul_le_mul_left h3 ht
    omega
  have hm_up : m + 2 ^ (j - 1) ≤ 2 ^ (52 + j) := by
    have hstep : 2 * (c * 2 ^ (52 + j)) + 2 * 2 ^ (52 + j) ≤ 2 * (t * 2 ^ (52 + j)) := by
      have h1 : 2 * (c * 2 ^ (52 + j)) + 2 * 2 ^ (52 + j) =
          2 * ((c + 1) * 2 ^ (52 + j)) := by ring
      have h2 : (c + 1) * 2 ^ (52 + j) ≤ t * 2 ^ (52 + j) :=
        Nat.mul_le_mul_right _ (by omega)
      omega
    have hsmall : t + 2 * (t * 2 ^ (j - 1)) ≤ 2 * 2 ^ (52 + j) := by
      have h1 : t + 2 * (t * 2 ^ (j - 1)) = t * (1 + 2 ^ j) := by rw [hsplit]; ring
      have h2 : 1 + 2 ^ j ≤ 2 * 2 ^ j := by omega
      have h3 : t * (1 + 2 ^ j) ≤ 2 ^ 52 * (2 * 2 ^ j) := Nat.mul_le_mul ht52 h2
      have h4 : (2:Nat) ^ 52 * (2 * 2 ^ j) = 2 * 2 ^ (52 + j) := by rw [pow_add]; ring
      omega
    have hcomb : t * (2 * (m + 2 ^ (j - 1))) ≤ t * (2 * 2 ^ (52 + j)) := by
      have h1 : t * (2 * (m + 2 ^ (j - 1))) = 2 * (t * m) + 2 * (t * 2 ^ (j - 1)) := by
        ring
      have h2 : t * (2 * 2 ^ (52 + j)) = 2 * (t * 2 ^ (52 + j)) := by ring
      omega
    have := Nat.le_of_mul_le_mul_left hcomb ht
    omega
  have hM_low : 2 ^ 58 ≤ m * 100 := by
    have h1 : (2:Nat) ^ 58 = 2 ^ 52 * 64 := by norm_num [pow_add]
    have h2 : 2 ^ 52 * 64 ≤ m * 100 := Nat.mul_le_mul hm_low (by omega)
    omega
  have hM_up : m * 100 < 2 ^ (59 + j) := by
    have h0 : (0:Nat) < 2 ^ (52 + j) := Nat.two_pow_pos _
    have h1 : m * 100 ≤ 2 ^ (52 + j) * 100 := Nat.mul_le_mul_right _ (by omega)
    have h2 : (2:Nat) ^ (59 + j) = 2 ^ (52 + j) * 128 := by
      rw [show 59 + j = (52 + j) + 7 by omega, pow_add]; norm_num
    omega
  have hMpos : 0 < m * 100 := by
    have := Nat.two_pow_pos 58
    omega
  obtain ⟨hL1, hL2⟩ := ilog2F_spec (m * 100) (m * 100) hMpos (le_refl _)
  rw [← hL] at hL1 hL2
  have hL_low : 58 ≤ L := by
    have h1 : (2:Nat) ^ 58 < 2 ^ (L + 1) := by omega
    have := (Nat.pow_lt_pow_iff_right (by omega : (1:Nat) < 2)).mp h1
    omega
  have hL_up : L ≤ 58 + j := by
    have h1 : (2:Nat) ^ L < 2 ^ (59 + j) := by omega
    have := (Nat.pow_lt_pow_iff_right (by omega : (1:Nat) < 2)).mp h1
    omega
  refine ⟨by omega, ?_⟩
  have hdpos : (0:Nat) < 2 ^ (L - 52) := Nat.two_pow_pos _
  obtain ⟨hsb1, hsb2⟩ := rndNE_bounds (m * 100) (2 ^ (L - 52)) hdpos
  rw [← hm2] at hsb1 hsb2
  have hchain : 2 * (2 ^ (L - 52) * m2) < 100 * 2 ^ (53 + j) := by
    have h1 : (2:Nat) ^ (L - 52) ≤ 2 ^ (6 + j) := Nat.pow_le_pow_right (by omega) (by omega)
    have h2 : (2:Nat) ^ (6 + j) = 64 * 2 ^ j := by rw [pow_add]; norm_num
    have h5 : (100:Nat) * 2 ^ (53 + j) = 200 * 2 ^ (52 + j) := by
      rw [show 53 + j = (52 + j) + 1 by omega, pow_succ]; ring
    omega
  have hm2bound : m2 < 100 * 2 ^ (104 + j - L) := by
    by_contra hcon
    push_neg at hcon
    have h1 : 2 ^ (L - 52) * (100 * 2 ^ (104 + j - L)) ≤ 2 ^ (L - 52) * m2 :=
      Nat.mul_le_mul_left _ hcon
    have h2 : 2 ^ (L - 52) * (100 * 2 ^ (104 + j - L)) = 100 * 2 ^ (52 + j) := by
      calc 2 ^ (L - 52) * (100 * 2 ^ (104 + j - L))
          = 100 * (2 ^ (L - 52) * 2 ^ (104 + j - L)) := by ring
        _ = 100 * 2 ^ (L - 52 + (104 + j - L)) := by rw [pow_add]
        _ = 100 * 2 ^ (52 + j) := by rw [show L - 52 + (104 + j - L) = 52 + j by omega]
    have h3 : (100:Nat) * 2 ^ (53 + j) = 2 * (100 * 2 ^ (52 + j)) := by
      rw [show 53 + j = (52 + j) + 1 by omega, pow_succ]; ring
    omega
  have hdiv : m2 / 2 ^ (104 + j - L) < 100 := by
    rw [Nat.div_lt_iff_lt_mul (Nat.two_pow_pos _)]
    exact hm2bound
  have hE : ((L : Int) + (-(j : Int) - 52) - 52) = -(((104 + j - L : Nat) : Int)) := by
    omega
  unfold floorPosVal
  rw [hE, if_neg (by omega),
    show (-(-(((104 + j - L : Nat)) : Int))).toNat = 104 + j - L by omega]
  omega

/-- The float pipeline is exact on the quotient `t / t = 1`: the program
reports 100 percent for a fully completed course. -/
theorem pyFloatPct_self (t : Nat) (ht : 0 < t) : pyFloatPct t t = 100 := by
  have hexp : ratExp t t = 0 := by
    unfold ratExp
    rw [if_pos (le_refl t), Nat.div_self ht, ilog2F_one]
    rfl
  have hm : mantissaAt t t (ratExp t t) = 2 ^ 52 := by
    rw [hexp]
    unfold mantissaAt
    rw [if_pos (by decide), show ((52:Int) - 0).toNat = 52 by decide]
    exact rndNE_mul t (2 ^ 52) ht
  have hdiv : floatDiv t t = (2 ^ 52, -52) := by
    unfold floatDiv
    rw [hm, hexp]
    norm_num
  unfold pyFloatPct
  rw [if_neg (by omega), if_neg (by omega), hdiv]
  decide

/-- The float pipeline on a proper fraction `c / t` with `0 < c < t ≤ 2 ^ 52`
truncates to at most 99: an incomplete course never reports 100 percent. -/
theorem pyFloatPct_lt (c t : Nat) (hc : 0 < c) (hct : c < t) (ht52 : t ≤ 2 ^ 52) :
    pyFloatPct c t ≤ 99 := by
  have ht : 0 < t := by omega
  have hfuel : t ≤ 2 ^ t * c := by
    have h1 : t < 2 ^ t := Nat.lt_two_pow t
    have h2 : 2 ^ t * 1 ≤ 2 ^ t * c := Nat.mul_le_mul_left _ (by omega : 1 ≤ c)
    have h3 : 2 ^ t * 1 = 2 ^ t := by ring
    omega
  obtain ⟨hj1, hj2, hj3⟩ := negExpF_spec t c t hc hct hfuel
  obtain ⟨hbr, hfin⟩ := pct_core_lt c t (negExpF t c t) _ _ _ hct ht52 hj1 hj3 rfl rfl rfl
  have hexp : ratExp c t = -((negExpF t c t : Nat) : Int) := by
    unfold ratExp
    rw [if_neg (by omega)]
  have hmant : mantissaAt c t (ratExp c t) =
      rndNE (c * 2 ^ (52 + negExpF t c t)) t := by
    rw [hexp]
    unfold mantissaAt
    rw [if_pos (by omega),
      show ((52:Int) - (-(((negExpF t c t : Nat)) : Int))).toNat = 52 + negExpF t c t
        by omega]
  have hfd : floatDiv c t =
      (rndNE (c * 2 ^ (52 + negExpF t c t)) t, -((negExpF t c t : Nat) : Int) - 52) := by
    unfold floatDiv
    rw [hmant, hexp]
  have hfm : floatMul100 (rndNE (c * 2 ^ (52 + negExpF t c t)) t)
      (-((negExpF t c t : Nat) : Int) - 52) =
      (rndNE (rndNE (c * 2 ^ (52 + negExpF t c t)) t * 100)
        (2 ^ (ilog2F (rndNE (c * 2 ^ (52 + negExpF t c t)) t * 100)
          (rndNE (c * 2 ^ (52 + negExpF t c t)) t * 100) - 52)),
       ((ilog2F (rndNE (c * 2 ^ (52 + negExpF t c t)) t * 100)
          (rndNE (c * 2 ^ (52 + negExpF t c t)) t * 100) : Int) +
         (-((negExpF t c t : Nat) : Int) - 52) - 52)) := by
    unfold floatMul100
    rw [if_pos hbr]
  unfold pyFloatPct
  rw [if_neg (by omega), if_neg (by omega), hfd, hfm]
  exact hfin

set_option maxRecDepth 1000000 in
/-- C6 counterexample: in a course of 50 lectures with 29 completed, the
claim's exact formula `completed * 100 / total` gives 58, but the program
computes `int((29 / 50) * 100)` in binary64 floats — the double nearest
29/50 lies just below 0.58, the rounded product is 57.99999999999999289,
and `get_progress` returns 57. -/
theorem get_progress_truncation_counterexample :
    cexProgress.countP (completedRowFor cexSections cexLectures 1 7) = 29 ∧
    (courseLectures cexSections cexLectures 1).length = 50 ∧
    29 * 100 / 50 = 58 ∧
    get_progress cexEnrollments cexSections cexLectures cexProgress 1 7 = 57 := by
  decide

/-- C6 amended: `Course.get_progress` returns 0 without an enrollment, 0
when the course has no lectures, and otherwise `int((completed/total)*100)`
computed in binary64 float arithmetic (`pyFloatPct`), which can fall one
below the exact truncated percentage; under the primary-key uniqueness of
lecture ids, one progress row per (user, lecture), and a course size of at
most `2 ^ 52`, the result is 100 exactly when every lecture under the
course has a completed progress row for the user. -/
theorem get_progress_spec (enrollments : List EnrollmentRow)
    (sections : List SectionRow) (lectures : List LectureRow)
    (lps : List LectureProgressRow) (courseId userId : Nat)
    (hlecId : (lectures.map (fun l => l.id)).Nodup)
    (hpairs : (lps.map (fun p => (p.user_id, p.lecture_id))).Nodup) :
    (enrollments.any (fun e => e.user_id = userId ∧ e.course_id = courseId) = false →
      get_progress enrollments sections lectures lps courseId userId = 0) ∧
    (courseLectures sections lectures courseId = [] →
      get_progress enrollments sections lectures lps courseId userId = 0) ∧
    (enrollments.any (fun e => e.user_id = userId ∧ e.course_id = courseId) = true →
      courseLectures sections lectures courseId ≠ [] →
      get_progress enrollments sections lectures lps courseId userId =
        pyFloatPct (lps.countP (completedRowFor sections lectures courseId userId))
          (courseLectures sections lectures courseId).length) ∧
    (enrollments.any (fun e => e.user_id = userId ∧ e.course_id = courseId) = true →
      courseLectures sections lectures courseId ≠ [] →
      (courseLectures sections lectures courseId).length ≤ 2 ^ 52 →
      (get_progress enrollments sections lectures lps courseId userId = 100 ↔
        ∀ l ∈ courseLectures sections lectures courseId,
          lectureCompletedFor lps userId l = true)) := by
  refine ⟨?_, ?_, ?_, ?_⟩
  · intro h
    unfold get_progress
    rw [if_pos (by rw [h]; decide)]
  · intro h
    unfold get_progress
    by_cases he : enrollments.any
        (fun e => e.user_id = userId ∧ e.course_id = courseId) = true
    · rw [if_neg (by rw [he]; decide), if_pos (by rw [h]; rfl)]
    · rw [if_pos (by simpa using he)]
  · intro he hne
    have ht : 0 < (courseLectures sections lectures courseId).length :=
      List.length_pos.mpr hne
    unfold get_progress
    rw [if_neg (by rw [he]; decide), if_neg (by omega)]
  · intro he hne hbound
    have ht : 0 < (courseLectures sections lectures courseId).length :=
      List.length_pos.mpr hne
    have hval : get_progress enrollments sections lectures lps courseId userId =
        pyFloatPct (lps.countP (completedRowFor sections lectures courseId userId))
          (courseLectures sections lectures courseId).length := by
      unfold get_progress
      rw [if_neg (by rw [he]; decide), if_neg (by omega)]
    obtain ⟨hle, hiff⟩ := completed_count_le_iff sections lectures lps courseId userId
      hlecId hpairs
    rw [hval, ← hiff]
    constructor
    · intro h
      by_contra hne2
      have hlt : lps.countP (completedRowFor sections lectures courseId userId) <
          (courseLectures sections lectures courseId).length :=
        Nat.lt_of_le_of_ne hle hne2
      rcases Nat.eq_zero_or_pos
          (lps.countP (completedRowFor sections lectures courseId userId)) with hc0 | hcpos
      · rw [hc0] at h
        have h0 : pyFloatPct 0 (courseLectures sections lectures courseId).length = 0 := by
          unfold pyFloatPct
          rw [if_pos rfl]
        omega
      · have := pyFloatPct_lt _ _ hcpos hlt hbound
        omega
    · intro h
      rw [h]
      exact pyFloatPct_self _ ht

/-- Witness for C6: user 1 enrolled in course 1, one lecture with a completed
progress row — progress is 100. -/
theorem get_progress_spec_witness :
    get_progress [⟨1, 1⟩] [⟨1, 1, 1⟩] [⟨1, 1, 1⟩] [⟨1, 1, 1, true⟩] 1 1 = 100 := by
  have h := (get_progress_spec [⟨1, 1⟩] [⟨1, 1, 1⟩] [⟨1, 1, 1⟩] [⟨1, 1, 1, true⟩] 1 1
    (by decide) (by decide)).2.2.2 (by decide) (by decide) (by decide)
  exact h.mpr (by decide)
